import Mathlib

/-!
Verification of the structure-inference core of `epubify.py`: line
classification (`classify_heading`), metadata extraction
(`parse_metadata`), and document assembly (`parse_book`).

Lines of text are modelled as `List Char`; texts as `List Char` split by
`splitlines`.  Python's mutable `Chapter`/`Volume` objects (which carry
object identity and reference cycles through the `volume` back pointer)
are modelled arena-style: a chapter is addressed by the pair
(owning-volume index or `none`, position in that owner's chapter list),
and `Book.spine` stores such addresses, which faithfully captures the
identity of the Python objects appended to `book.spine`.
-/

namespace Epubify

/-- Whitespace as recognised by Python's `str.strip` and the regex class
`\s` (ASCII whitespace, the C1 separators, NBSP, the Unicode space
separators, line/paragraph separators, and the ideographic space). -/
def isPySpace (c : Char) : Bool :=
  c == ' ' || c == '\t' || c == '\n' || c == '\r' || c == '\x0b' || c == '\x0c' ||
  c == '\x1c' || c == '\x1d' || c == '\x1e' || c == '\x1f' || c == '\x85' ||
  c == ' ' || c == ' ' ||
  (0x2000 ≤ c.toNat && c.toNat ≤ 0x200A) ||
  c == ' ' || c == ' ' || c == ' ' || c == ' ' || c == '　'

/-- Python `str.strip()`. -/
def pyStrip (cs : List Char) : List Char :=
  ((cs.dropWhile isPySpace).reverse.dropWhile isPySpace).reverse

/-- Line-break characters recognised by Python `str.splitlines`. -/
def isLineBreak (c : Char) : Bool :=
  c == '\n' || c == '\r' || c == '\x0b' || c == '\x0c' ||
  c == '\x1c' || c == '\x1d' || c == '\x1e' || c == '\x85' ||
  c == ' ' || c == ' '

/-- Worker for `splitlines`; `acc` holds the current line reversed. -/
def splitlinesAux : List Char → List Char → List (List Char)
  | [], acc => if acc.isEmpty then [] else [acc.reverse]
  | '\r' :: '\n' :: rest, acc => acc.reverse :: splitlinesAux rest []
  | c :: rest, acc =>
    if isLineBreak c then acc.reverse :: splitlinesAux rest []
    else splitlinesAux rest (c :: acc)

/-- Python `str.splitlines()` (no terminator kept, `\r\n` counts once,
no trailing empty line for a terminal line break). -/
def splitlines (cs : List Char) : List (List Char) :=
  splitlinesAux cs []

/-- The numeral class `[0-9一二三四五六七八九十百千万两零〇]` used by the
chapter and volume patterns. -/
def isCJKOrArabicNum (c : Char) : Bool :=
  c.isDigit || c == '一' || c == '二' || c == '三' || c == '四' || c == '五' ||
  c == '六' || c == '七' || c == '八' || c == '九' || c == '十' ||
  c == '百' || c == '千' || c == '万' || c == '两' || c == '零' || c == '〇'

/-- The trailing `.*$` of the heading regexes, applied to the text after
the marker character.  `.` excludes `'\n'`; `$` also matches just before
a final newline, but the matched string is always the result of
`str.strip`, so a trailing `'\n'` cannot occur and the condition is
simply the absence of `'\n'`. -/
def dotStarDollar (cs : List Char) : Bool :=
  !cs.contains '\n'

/-- Shared worker for the `第`-prefixed patterns
`^第\s*[num]+\s*(章|节|回|卷|部).*$`: after `第`, skip whitespace, require a
nonempty numeral run, skip whitespace, and return the next character (the
candidate marker) together with the remaining text. -/
def diMarker (s : List Char) : Option (Char × List Char) :=
  match s with
  | [] => none
  | c :: rest =>
    if c = '第' then
      let r1 := rest.dropWhile isPySpace
      if (r1.takeWhile isCJKOrArabicNum).isEmpty then none
      else
        match (r1.dropWhile isCJKOrArabicNum).dropWhile isPySpace with
        | [] => none
        | m :: tail => some (m, tail)
    else none

/-- Case-insensitive prefix test (ASCII case folding, as used by the
`re.IGNORECASE` pattern `^Chapter\s+\d+.*$` on its ASCII letters). -/
def hasPrefixCI : List Char → List Char → Bool
  | [], _ => true
  | _ :: _, [] => false
  | p :: ps, c :: cs => (c.toLower == p) && hasPrefixCI ps cs

/-- Plain prefix test on character lists. -/
def hasPrefixL : List Char → List Char → Bool
  | [], _ => true
  | _ :: _, [] => false
  | p :: ps, c :: cs => (p == c) && hasPrefixL ps cs

/-- The pattern `^Chapter\s+\d+.*$` with `re.IGNORECASE` (`\d` modelled as
the ASCII digits). -/
def chapterEnMatch (s : List Char) : Bool :=
  hasPrefixCI ['c', 'h', 'a', 'p', 't', 'e', 'r'] s &&
  (match s.drop 7 with
   | r :: rest =>
     isPySpace r &&
     (match rest.dropWhile isPySpace with
      | d :: t => d.isDigit && dotStarDollar t
      | [] => false)
   | [] => false)

/-- `CHAPTER_PATTERNS`: `第N章`, `第N节`, `第N回` (N a numeral run) and
`Chapter N`. -/
def chapterPatternsMatch (s : List Char) : Bool :=
  (match diMarker s with
   | some (m, t) => (m == '章' || m == '节' || m == '回') && dotStarDollar t
   | none => false) ||
  chapterEnMatch s

/-- The pattern `^卷\s*[num]+.*$`. -/
def volumeJuanMatch (s : List Char) : Bool :=
  match s with
  | [] => false
  | c :: rest =>
    if c = '卷' then
      match rest.dropWhile isPySpace with
      | d :: t => isCJKOrArabicNum d && dotStarDollar t
      | [] => false
    else false

/-- `VOLUME_PATTERNS`: `第N卷`, `卷N`, `第N部`. -/
def volumePatternsMatch (s : List Char) : Bool :=
  (match diMarker s with
   | some (m, t) => (m == '卷' || m == '部') && dotStarDollar t
   | none => false) ||
  volumeJuanMatch s

/-- `SPECIAL_HEADINGS` (fixed keyword list of the source). -/
def specialKeywords : List (List Char) :=
  [['序', '章'], ['序'], ['楔', '子'], ['引', '子'], ['前', '言'], ['前', '序'],
   ['后', '记'], ['后', '序'], ['尾', '声'], ['结', '语'], ['终', '章'],
   ['终', '卷'], ['终', '篇'], ['番', '外'], ['番', '外', '篇'],
   ['作', '者', '的', '话'], ['完', '结', '感', '言']]

/-- A special-heading keyword matches when the stripped line equals it or
starts with it followed by a space or a colon. -/
def specialMatch (s : List Char) : Bool :=
  specialKeywords.any fun kw =>
    s == kw || hasPrefixL (kw ++ [' ']) s || hasPrefixL (kw ++ ['：']) s ||
      hasPrefixL (kw ++ [':']) s

/-- `HEADING_MAX_LEN`. -/
def HEADING_MAX_LEN : Nat := 40

/-- `HEADING_MAX_COMMAS`. -/
def HEADING_MAX_COMMAS : Nat := 1

/-- Number of comma-class characters (`，` or `,`), i.e. the length of
`COMMA_RE.findall(s)`. -/
def countCommas (s : List Char) : Nat :=
  (s.filter fun c => c == '，' || c == ',').length

/-- `SENTENCE_END_RE.search(s)`: the stripped text ends in `。`, `！` or
`？` (stripped text cannot end in a newline, so `$` is plain end). -/
def endsSentencePunct (s : List Char) : Bool :=
  match s.getLast? with
  | some c => c == '。' || c == '！' || c == '？'
  | none => false

/-- A neighbor counts as blank when it is absent or strips to empty. -/
def isBlankOpt : Option (List Char) → Bool
  | none => true
  | some l => (pyStrip l).isEmpty

/-- `is_likely_heading_line`: the plausibility filter. -/
def isLikelyHeadingLine (line : List Char) (prev next : Option (List Char)) : Bool :=
  let s := pyStrip line
  if s.isEmpty then false
  else
    let isolated := isBlankOpt prev || isBlankOpt next
    if endsSentencePunct s && !isolated then false
    else if decide (HEADING_MAX_LEN < s.length) && !isolated then false
    else if decide (HEADING_MAX_COMMAS < countCommas s) && !isolated then false
    else true

/-- Result kind of `classify_heading` (the strings `"chapter"` /
`"volume"` of the source). -/
inductive HeadKind
  | chapter
  | volume
deriving DecidableEq, Repr

/-- `classify_heading`. -/
def classifyHeading (line : List Char) (prev next : Option (List Char)) :
    Option HeadKind :=
  let s := pyStrip line
  if s.isEmpty then none
  else if chapterPatternsMatch s then
    if isLikelyHeadingLine line prev next then some .chapter else none
  else if specialMatch s then
    if isLikelyHeadingLine line prev next then some .chapter else none
  else if volumePatternsMatch s then
    if isLikelyHeadingLine line prev next then some .volume else none
  else none

/-- `is_heading`. -/
def isHeading (line : List Char) (prev next : Option (List Char)) : Bool :=
  (classifyHeading line prev next).isSome

/-- The label `书名`. -/
def labShuMing : List Char := ['书', '名']

/-- The label `作者`. -/
def labZuoZhe : List Char := ['作', '者']

/-- The label variant `作 者` (single ASCII space), as listed in the
source's membership test `label in ("作者", "作 者")`. -/
def labZuoZheSp : List Char := ['作', ' ', '者']

/-- The bare label variant `书 名`. -/
def labShuMingSp : List Char := ['书', ' ', '名']

/-- The synopsis labels `内容简介`, `简介`, `内容介绍`, `文案`. -/
def synopsisLabels : List (List Char) :=
  [['内', '容', '简', '介'], ['简', '介'], ['内', '容', '介', '绍'], ['文', '案']]

/-- The part `\s*[:：]\s*(.*)\s*$` of `LABEL_RE`, applied to the text
after a label: skip whitespace, require a colon, and return the raw text
after it.  On a stripped line the trailing `\s*$` forces the value part
to contain no newline fo the regex to match at all. -/
def colonValue (rest : List Char) : Option (List Char) :=
  match rest.dropWhile isPySpace with
  | c :: v => if (c == ':' || c == '：') && !v.contains '\n' then some v else none
  | [] => none

/-- Try one literal alternative of the label group: if `lit` is a prefix
of `s` and a colon part follows, return the captured label and the
stripped value. -/
def tryLabelLit (lit s : List Char) : Option (List Char × List Char) :=
  if hasPrefixL lit s then
    match colonValue (s.drop lit.length) with
    | some v => some (lit, pyStrip v)
    | none => none
  else none

/-- The alternative `作\s*者` of the label group: `作`, a (maximal) run of
whitespace, `者`, then the colon part.  The captured label text includes
the whitespace run, exactly as the regex group does. -/
def tryZuoZheWs (s : List Char) : Option (List Char × List Char) :=
  match s with
  | '作' :: rest =>
    let sp := rest.takeWhile isPySpace
    match rest.dropWhile isPySpace with
    | '者' :: rest3 =>
      match colonValue rest3 with
      | some v => some ('作' :: (sp ++ ['者']), pyStrip v)
      | none => none
    | _ => none
  | _ => none

/-- `LABEL_RE.match(s)` on a stripped line: the ordered alternatives
`书名|作者|作\s*者|内容简介|简介|内容介绍|文案` followed by a colon and a
value; returns the captured label text and the stripped value. -/
def labelMatch (s : List Char) : Option (List Char × List Char) :=
  (tryLabelLit labShuMing s).orElse fun _ =>
  (tryLabelLit labZuoZhe s).orElse fun _ =>
  (tryZuoZheWs s).orElse fun _ =>
  (tryLabelLit (synopsisLabels.getD 0 []) s).orElse fun _ =>
  (tryLabelLit (synopsisLabels.getD 1 []) s).orElse fun _ =>
  (tryLabelLit (synopsisLabels.getD 2 []) s).orElse fun _ =>
  tryLabelLit (synopsisLabels.getD 3 []) s

/-- `TITLE_ONLY_RE` = `^《(.+)》$` on a stripped line: returns the text
between the first `《` and the last `》` (nonempty, no newline). -/
def titleOnlyMatch (s : List Char) : Option (List Char) :=
  match s with
  | '《' :: rest =>
    match rest.getLast? with
    | some '》' =>
      let mid := rest.dropLast
      if mid ≠ [] && !mid.contains '\n' then some mid else none
    | _ => none
  | _ => none

/-- Substring test: does `needle` occur inside `hay`? -/
def containsSub (needle : List Char) : List Char → Bool
  | [] => needle.isEmpty
  | c :: cs => hasPrefixL needle (c :: cs) || containsSub needle cs

/-- The alternatives of `SKIP_CANDIDATE_RE`
(`http|www|QQ群|群|公众号|微信|下载|txt|整理|校对|打包|本书|电子书`); note
the bare `群` alternative of the source. -/
def skipMarkers : List (List Char) :=
  [['h', 't', 't', 'p'], ['w', 'w', 'w'], ['Q', 'Q', '群'], ['群'],
   ['公', '众', '号'], ['微', '信'], ['下', '载'], ['t', 'x', 't'],
   ['整', '理'], ['校', '对'], ['打', '包'], ['本', '书'], ['电', '子', '书']]

/-- `SKIP_CANDIDATE_RE.search(s)`. -/
def skipMatch (s : List Char) : Bool :=
  skipMarkers.any fun m => containsSub m s

/-- A pending bare label, waiting for a colon-prefixed value line. -/
inductive Pend
  | title
  | author
deriving DecidableEq, Repr

/-- The loop state of `parse_metadata` (`skip_idx` is a set in the
source; modelled as a duplicate-free-by-construction list used only
through membership). -/
structure MetaSt where
  title : Option (List Char) := none
  author : Option (List Char) := none
  introLines : List (List Char) := []
  skipIdx : List Nat := []
  candidates : List (Nat × List Char) := []
  pendingLabel : Option Pend := none
  inIntro : Bool := false
  nonEmptySeen : Nat := 0
deriving DecidableEq, Repr

/-- Line at index `i` (the loop only uses valid indices). -/
def lineAt (lines : List (List Char)) (i : Nat) : List Char :=
  lines.getD i []

/-- `lines[i-1] if i > 0 else None`. -/
def prevAt (lines : List (List Char)) (i : Nat) : Option (List Char) :=
  if i = 0 then none else some (lineAt lines (i - 1))

/-- `lines[i+1] if i+1 < len(lines) else None`. -/
def nextAt (lines : List (List Char)) (i : Nat) : Option (List Char) :=
  if i + 1 < lines.length then some (lineAt lines (i + 1)) else none

/-- Does the stripped line start with `：` or `:`? -/
def colonHead : List Char → Bool
  | [] => false
  | c :: _ => c == '：' || c == ':'

/-- One iteration of the `parse_metadata` scan at index `i`; the boolean
is `false` exactly when the Python loop executes `break`. -/
def metaStep (lines : List (List Char)) (i : Nat) (st : MetaSt) : MetaSt × Bool :=
  let raw := lineAt lines i
  let prev := prevAt lines i
  let next := nextAt lines i
  let s := pyStrip raw
  if s = [] then
    (if st.inIntro ∧ st.introLines ≠ [] then { st with inIntro := false } else st,
     true)
  else if st.inIntro then
    if isHeading raw prev next then (st, false)
    else
      ({ st with introLines := st.introLines ++ [s], skipIdx := st.skipIdx ++ [i] },
       true)
  else
    match labelMatch s with
    | some (lab, value) =>
      let st1 := { st with skipIdx := st.skipIdx ++ [i] }
      if lab = labShuMing then
        (if value ≠ [] then { st1 with title := some value }
         else { st1 with pendingLabel := some .title }, true)
      else if lab = labZuoZhe ∨ lab = labZuoZheSp then
        (if value ≠ [] then { st1 with author := some value }
         else { st1 with pendingLabel := some .author }, true)
      else
        (if value ≠ [] then
           { st1 with introLines := st1.introLines ++ [value], inIntro := true }
         else { st1 with inIntro := true }, true)
    | none =>
      if s = labShuMing ∨ s = labShuMingSp then
        ({ st with pendingLabel := some .title, skipIdx := st.skipIdx ++ [i] }, true)
      else if s = labZuoZhe ∨ s = labZuoZheSp then
        ({ st with pendingLabel := some .author, skipIdx := st.skipIdx ++ [i] }, true)
      else if s ∈ synopsisLabels then
        ({ st with inIntro := true, skipIdx := st.skipIdx ++ [i] }, true)
      else if st.pendingLabel.isSome ∧ colonHead s then
        let value := pyStrip s.tail
        let st1 := { st with skipIdx := st.skipIdx ++ [i], pendingLabel := none }
        (if st.pendingLabel = some .title ∧ value ≠ [] then
           { st1 with title := some value }
         else if st.pendingLabel = some .author ∧ value ≠ [] then
           { st1 with author := some value }
         else st1, true)
      else
        let candBranch :=
          let n := st.nonEmptySeen + 1
          let cands :=
            if n ≤ 6 ∧ skipMatch s = false then st.candidates ++ [(i, s)]
            else st.candidates
          ({ st with nonEmptySeen := n, candidates := cands }, true)
        match titleOnlyMatch s with
        | some mid =>
          if st.title = none then
            ({ st with title := some (pyStrip mid), skipIdx := st.skipIdx ++ [i] },
             true)
          else candBranch
        | none => candBranch

/-- The scan loop over the indices below the scan limit, stopping early
on `break`. -/
def metaLoop (lines : List (List Char)) : List Nat → MetaSt → MetaSt
  | [], st => st
  | i :: is, st =>
    match metaStep lines i st with
    | (st', true) => metaLoop lines is st'
    | (st', false) => st'

/-- Index of the first line accepted as a heading (with its original
neighbors), if any. -/
def firstHeadingIdx (lines : List (List Char)) : Option Nat :=
  (List.range lines.length).find? fun i =>
    isHeading (lineAt lines i) (prevAt lines i) (nextAt lines i)

/-- The metadata scan limit. -/
def scanLimit (lines : List (List Char)) : Nat :=
  (firstHeadingIdx lines).getD lines.length

/-- The fallback choice of title and author from the first recorded
candidates, after the scan. -/
def metaPost (st : MetaSt) : MetaSt :=
  let p1 :=
    match st.title, st.candidates with
    | none, (idx, v) :: _ => (some v, st.skipIdx ++ [idx])
    | t, _ => (t, st.skipIdx)
  let p2 :=
    match st.author, st.candidates with
    | none, _ :: (idx, v) :: _ =>
      if p1.1 ≠ some v then (some v, p1.2 ++ [idx]) else (none, p1.2)
    | a, _ => (a, p1.2)
  { st with title := p1.1, author := p2.1, skipIdx := p2.2 }

/-- The full state after `parse_metadata`'s scan and post-processing. -/
def parseMetaState (lines : List (List Char)) : MetaSt :=
  metaPost (metaLoop lines (List.range (scanLimit lines)) {})

/-- The joined and stripped intro text, `None` when nothing was
collected. -/
def introOf (st : MetaSt) : Option (List Char) :=
  if st.introLines = [] then none
  else some (pyStrip (List.intercalate ['\n'] st.introLines))

/-- `parse_metadata`: `(title, author, intro, skip_idx)`. -/
def parseMetadata (lines : List (List Char)) :
    Option (List Char) × Option (List Char) × Option (List Char) × List Nat :=
  let st := parseMetaState lines
  (st.title, st.author, introOf st, st.skipIdx)

/-- Is `b` a UTF-8 continuation byte? -/
def isCont (b : Nat) : Bool :=
  0x80 ≤ b && b < 0xC0

/-- Lower bound of the first continuation byte of a 3-byte sequence
(rejecting overlong forms for lead `0xE0` and surrogates for `0xED`). -/
def cont1Lo3 (b : Nat) : Nat :=
  if b = 0xE0 then 0xA0 else 0x80

/-- Upper bound (exclusive) of the first continuation byte of a 3-byte
sequence. -/
def cont1Hi3 (b : Nat) : Nat :=
  if b = 0xED then 0xA0 else 0xC0

/-- Lower bound of the first continuation byte of a 4-byte sequence
(rejecting overlong forms for lead `0xF0`). -/
def cont1Lo4 (b : Nat) : Nat :=
  if b = 0xF0 then 0x90 else 0x80

/-- Upper bound (exclusive) of the first continuation byte of a 4-byte
sequence (rejecting code points above `U+10FFFF` for lead `0xF4`). -/
def cont1Hi4 (b : Nat) : Nat :=
  if b = 0xF4 then 0x90 else 0xC0

/-- Strict UTF-8 decoding of a byte sequence (the behavior of Python's
`bytes.decode("utf-8")`): rejects stray continuation bytes, overlong
forms, surrogates, code points above `U+10FFFF`, and truncated
sequences. -/
def utf8Decode : List Nat → Option (List Char)
  | [] => some []
  | b :: rest =>
    if b < 0x80 then (utf8Decode rest).map fun cs => Char.ofNat b :: cs
    else if b < 0xC2 then none
    else if b < 0xE0 then
      match rest with
      | b2 :: rest2 =>
        if isCont b2 then
          (utf8Decode rest2).map fun cs =>
            Char.ofNat ((b - 0xC0) * 64 + (b2 - 0x80)) :: cs
        else none
      | [] => none
    else if b < 0xF0 then
      match rest with
      | b2 :: b3 :: rest2 =>
        if (cont1Lo3 b ≤ b2 && b2 < cont1Hi3 b) && isCont b3 then
          (utf8Decode rest2).map fun cs =>
            Char.ofNat ((b - 0xE0) * 4096 + (b2 - 0x80) * 64 + (b3 - 0x80)) :: cs
        else none
      | _ => none
    else if b < 0xF5 then
      match rest with
      | b2 :: b3 :: b4 :: rest2 =>
        if (cont1Lo4 b ≤ b2 && b2 < cont1Hi4 b) && isCont b3 && isCont b4 then
          (utf8Decode rest2).map fun cs =>
            Char.ofNat
              ((b - 0xF0) * 262144 + (b2 - 0x80) * 4096 + (b3 - 0x80) * 64 +
                (b4 - 0x80)) :: cs
        else none
      | _ => none
    else none

/-- Python's `utf-8-sig` codec: strip a leading BOM when present, then
decode as strict UTF-8. -/
def utf8SigDecode (data : List Nat) : Option (List Char) :=
  match data with
  | 0xEF :: 0xBB :: 0xBF :: rest => utf8Decode rest
  | _ => utf8Decode data

/-- The replacement character `U+FFFD`. -/
def replChar : Char := Char.ofNat 0xFFFD

/-- One step of CPython's `errors="replace"` handling for UTF-8: given a
lead byte and the following bytes, the number of additional bytes
consumed (the valid continuation prefix of the sequence, CPython's
"maximal subpart") and the decoded char or `U+FFFD`. -/
def u8ext (b : Nat) (rest : List Nat) : Nat × Char :=
  if b < 0x80 then (0, Char.ofNat b)
  else if b < 0xC2 then (0, replChar)
  else if b < 0xE0 then
    match rest with
    | b2 :: _ =>
      if isCont b2 then (1, Char.ofNat ((b - 0xC0) * 64 + (b2 - 0x80)))
      else (0, replChar)
    | [] => (0, replChar)
  else if b < 0xF0 then
    match rest with
    | b2 :: rest2 =>
      if cont1Lo3 b ≤ b2 && b2 < cont1Hi3 b then
        match rest2 with
        | b3 :: _ =>
          if isCont b3 then
            (2, Char.ofNat ((b - 0xE0) * 4096 + (b2 - 0x80) * 64 + (b3 - 0x80)))
          else (1, replChar)
        | [] => (1, replChar)
      else (0, replChar)
    | [] => (0, replChar)
  else if b < 0xF5 then
    match rest with
    | b2 :: rest2 =>
      if cont1Lo4 b ≤ b2 && b2 < cont1Hi4 b then
        match rest2 with
        | b3 :: rest3 =>
          if isCont b3 then
            match rest3 with
            | b4 :: _ =>
              if isCont b4 then
                (3, Char.ofNat ((b - 0xF0) * 262144 + (b2 - 0x80) * 4096 +
                      (b3 - 0x80) * 64 + (b4 - 0x80)))
              else (2, replChar)
            | [] => (2, replChar)
          else (1, replChar)
        | [] => (1, replChar)
      else (0, replChar)
    | [] => (0, replChar)
  else (0, replChar)

/-- Python's `bytes.decode("utf-8", errors="replace")`: total decoding,
one `U+FFFD` per maximal subpart of an ill-formed sequence. -/
def utf8Replace : List Nat → List Char
  | [] => []
  | b :: rest =>
    let p := u8ext b rest
    p.2 :: utf8Replace (rest.drop p.1)
termination_by l => l.length
decreasing_by simp [List.length_drop]; omega

/-- `read_text`'s decoding ladder over the byte content of the file:
try `utf-8-sig`, then `utf-8`, then `gb18030`, and fall back to forced
UTF-8 decoding with replacement characters.  The GB18030 codec is an
external collaborator of the source (a stdlib codec), modelled as an
explicit decoding function argument. -/
def readText (gb18030 : List Nat → Option (List Char)) (data : List Nat) :
    List Char :=
  match utf8SigDecode data with
  | some t => t
  | none =>
    match utf8Decode data with
    | some t => t
    | none =>
      match gb18030 data with
      | some t => t
      | none => utf8Replace data

/-- `normalize_content_line`: strip, then delete ideographic spaces. -/
def normalizeContentLine (l : List Char) : List Char :=
  let s := pyStrip l
  if s = [] then [] else s.filter fun c => !(c == '　')

/-- A `Chapter` (arena form: `volume` is the index of the owning volume
in `Book.volumes`, or `none` for a root chapter; the serializer-only
fields `file_name`/`item_id` are omitted). -/
structure Chapter where
  title : List Char
  lines : List (List Char) := []
  volume : Option Nat := none
deriving DecidableEq, Repr

/-- A `Volume` (overflow `lines` plus its chapters). -/
structure Volume where
  title : List Char
  lines : List (List Char) := []
  chapters : List Chapter := []
deriving DecidableEq, Repr

/-- An entry of `book.spine`: in Python a reference to a `Volume` or
`Chapter` object, modelled by that object's arena address (`vol i` is
`book.volumes[i]`; `chap (some i) j` is `book.volumes[i].chapters[j]`;
`chap none j` is `book.root_chapters[j]`). -/
inductive SpineEntry
  | vol (i : Nat)
  | chap (owner : Option Nat) (j : Nat)
deriving DecidableEq, Repr

/-- A `Book`. -/
structure Book where
  title : List Char
  author : Option (List Char) := none
  intro : Option (List Char) := none
  volumes : List Volume := []
  rootChapters : List Chapter := []
  spine : List SpineEntry := []
deriving DecidableEq, Repr

/-- Replace the element at position `n` (identity when out of range). -/
def updateAt (n : Nat) (f : α → α) : List α → List α
  | [] => []
  | a :: as =>
    match n with
    | 0 => f a :: as
    | Nat.succ m => a :: updateAt m f as

/-- The assembler state of `parse_book`'s loop: the book being built
plus `current_volume` / `current_chapter` as arena addresses. -/
structure AsmSt where
  book : Book
  currentVolume : Option Nat := none
  currentChapter : Option (Option Nat × Nat) := none
deriving DecidableEq, Repr

/-- `start_volume`: append a fresh volume to `book.volumes` and to the
spine, and make it current (the caller also closes the current
chapter). -/
def startVolume (st : AsmSt) (heading : List Char) : AsmSt :=
  let i := st.book.volumes.length
  { st with
    book := { st.book with
      volumes := st.book.volumes ++ [{ title := heading }],
      spine := st.book.spine ++ [SpineEntry.vol i] },
    currentVolume := some i,
    currentChapter := none }

/-- `start_chapter`: append a fresh chapter to the current volume's
chapter list (or to `root_chapters`) and to the spine, and make it
current. -/
def startChapter (st : AsmSt) (heading : List Char) : AsmSt :=
  match st.currentVolume with
  | some i =>
    let j := ((st.book.volumes.getD i { title := [] }).chapters).length
    { st with
      book := { st.book with
        volumes := updateAt i
          (fun v => { v with chapters := v.chapters ++ [{ title := heading, volume := some i }] })
          st.book.volumes,
        spine := st.book.spine ++ [SpineEntry.chap (some i) j] },
      currentChapter := some (some i, j) }
  | none =>
    let j := st.book.rootChapters.length
    { st with
      book := { st.book with
        rootChapters := st.book.rootChapters ++ [{ title := heading, volume := none }],
        spine := st.book.spine ++ [SpineEntry.chap none j] },
      currentChapter := some (none, j) }

/-- `current_chapter.lines.append(content)` at a chapter address. -/
def appendToChapter (bk : Book) (loc : Option Nat × Nat) (content : List Char) :
    Book :=
  match loc with
  | (some i, j) =>
    let upd := fun (v : Volume) =>
      { v with chapters :=
          updateAt j (fun c => { c with lines := c.lines ++ [content] }) v.chapters }
    { bk with volumes := updateAt i upd bk.volumes }
  | (none, j) =>
    let upd := fun (c : Chapter) => { c with lines := c.lines ++ [content] }
    { bk with rootChapters := updateAt j upd bk.rootChapters }

/-- `current_volume.lines.append(content)`. -/
def appendToVolume (bk : Book) (i : Nat) (content : List Char) : Book :=
  let upd := fun (v : Volume) => { v with lines := v.lines ++ [content] }
  { bk with volumes := updateAt i upd bk.volumes }

/-- The synthesized fallback chapter title `正文`. -/
def zhengWen : List Char := ['正', '文']

/-- One iteration of `parse_book`'s loop on a body line. -/
def asmStep (line : List Char) (prev next : Option (List Char)) (st : AsmSt) :
    AsmSt :=
  match classifyHeading line prev next with
  | some .volume => startVolume st (pyStrip line)
  | some .chapter => startChapter st (pyStrip line)
  | none =>
    let content := normalizeContentLine line
    if content = [] then st
    else
      match st.currentChapter with
      | some loc => { st with book := appendToChapter st.book loc content }
      | none =>
        match st.currentVolume with
        | some i => { st with book := appendToVolume st.book i content }
        | none =>
          if st.book.rootChapters = [] then
            let loc : Option Nat × Nat := (none, st.book.rootChapters.length)
            let st1 := startChapter st zhengWen
            { st1 with book := appendToChapter st1.book loc content }
          else
            let loc : Option Nat × Nat := (none, st.book.rootChapters.length - 1)
            { st with
              book := appendToChapter st.book loc content,
              currentChapter := some loc }

/-- The loop of `parse_book` over the body lines, threading the previous
line and peeking at the next. -/
def bodyLoop : Option (List Char) → List (List Char) → AsmSt → AsmSt
  | _, [], st => st
  | prev, l :: rest, st => bodyLoop (some l) rest (asmStep l prev rest.head? st)

/-- The body lines: every line whose index was not claimed by the
metadata pass, with leading blank lines discarded. -/
def bodyLines (lines : List (List Char)) (skip : List Nat) : List (List Char) :=
  ((lines.enum.filter fun p => !(skip.contains p.1)).map Prod.snd).dropWhile
    fun l => (pyStrip l).isEmpty

/-- `title or source_name`: Python's falsy test also replaces an empty
recovered title by the source name. -/
def bookTitleOf (t? : Option (List Char)) (nm : List Char) : List Char :=
  match t? with
  | some t => if t = [] then nm else t
  | none => nm

/-- The assembler's initial state as built by `parse_book`. -/
def asmInit (t : List Char) (a intro : Option (List Char)) : AsmSt :=
  { book := { title := t, author := a, intro := intro } }

/-- `parse_book`. -/
def parseBook (text : List Char) (sourceName : List Char) : Book :=
  let lines := splitlines text
  let md := parseMetadata lines
  let body := bodyLines lines md.2.2.2
  (bodyLoop none body (asmInit (bookTitleOf md.1 sourceName) md.2.1 md.2.2.1)).book

/-- Does the stripped line match any heading pattern (chapter, special
keyword, or volume) at all? -/
def headingPatternAny (s : List Char) : Bool :=
  chapterPatternsMatch s || specialMatch s || volumePatternsMatch s

/-- All bare-label forms consumed by the metadata scan without a
colon. -/
def bareLabelForms : List (List Char) :=
  [labShuMing, labShuMingSp, labZuoZhe, labZuoZheSp] ++ synopsisLabels

/-- The spine layout stated by the spec: all root chapters first, in
order, then for each volume (in order) the volume itself immediately
followed by its own chapters in order.  Each address occurs exactly
once, so equality with this form expresses the spec's uniqueness, order
and adjacency requirements at once. -/
def canonicalSpine (r : Nat) (ns : List Nat) : List SpineEntry :=
  ((List.range r).map (SpineEntry.chap none)) ++
    (ns.enum.map fun p =>
      SpineEntry.vol p.1 :: (List.range p.2).map (SpineEntry.chap (some p.1))).flatten

/-- Ownership consistency: root chapters have no parent volume and every
chapter stored under volume `i` points back to volume `i` (the Python
`Chapter.volume` back reference). -/
def ownersOk (bk : Book) : Prop :=
  (∀ c ∈ bk.rootChapters, c.volume = none) ∧
  (∀ i v, bk.volumes.get? i = some v → ∀ c ∈ v.chapters, c.volume = some i)

/-- Inductive invariant of the assembler used for the spine-shape
claim. -/
def asmSpineInv (st : AsmSt) : Prop :=
  st.book.spine =
      canonicalSpine st.book.rootChapters.length
        (st.book.volumes.map fun v => v.chapters.length) ∧
  st.currentVolume =
      (if st.book.volumes = [] then none else some (st.book.volumes.length - 1)) ∧
  ownersOk st.book

/-- Inductive invariant of the assembler for the fallback-branch claim:
while no chapter and no volume is current, nothing has been created, and
at most one root chapter carries the synthesized title. -/
def asmFallbackInv (st : AsmSt) : Prop :=
  (st.currentChapter = none ∧ st.currentVolume = none →
    st.book.rootChapters = [] ∧ st.book.volumes = []) ∧
  (st.book.rootChapters.countP fun c => c.title == zhengWen) ≤ 1

/-- Variant of `asmStep` whose content fallback always synthesizes a
fresh `正文` chapter, i.e. with the `book.root_chapters[-1]` branch of
the source removed. -/
def asmStepNF (line : List Char) (prev next : Option (List Char)) (st : AsmSt) :
    AsmSt :=
  match classifyHeading line prev next with
  | some .volume => startVolume st (pyStrip line)
  | some .chapter => startChapter st (pyStrip line)
  | none =>
    let content := normalizeContentLine line
    if content = [] then st
    else
      match st.currentChapter with
      | some loc => { st with book := appendToChapter st.book loc content }
      | none =>
        match st.currentVolume with
        | some i => { st with book := appendToVolume st.book i content }
        | none =>
          let loc : Option Nat × Nat := (none, st.book.rootChapters.length)
          let st1 := startChapter st zhengWen
          { st1 with book := appendToChapter st1.book loc content }

/-- The assembler loop over `asmStepNF`. -/
def bodyLoopNF : Option (List Char) → List (List Char) → AsmSt → AsmSt
  | _, [], st => st
  | prev, l :: rest, st => bodyLoopNF (some l) rest (asmStepNF l prev rest.head? st)

/-- The normalized nonempty content lines of a line list, in order. -/
def normalizedContents (ls : List (List Char)) : List (List Char) :=
  (ls.map normalizeContentLine).filter fun c => c ≠ []

/-- The sample input of the spec's metadata/chapter example. -/
def c3text : List Char :=
  "书名：示例书\n作者：张三\n\n内容简介：\n这是简介第一行。\n这是简介第二行。\n\n第一章 开始\n第一行内容\n第二行内容\n\n第二章 继续\n第三行内容\n".data

/-- Two plain lines with no metadata forms and no headings; both are
consumed as title/author candidates, leaving an empty body. -/
def c4cexText : List Char := "aaa\nbbb".data

/-- Three plain lines with no metadata forms and no headings. -/
def c4witText : List Char := "aaa\nbbb\nccc".data

/-- An author label written with a tab between `作` and `者`. -/
def c5cexLine : List Char := "作\t者：张三".data

/-- A title label with empty value, an ordinary line, then a
colon-prefixed value line (not immediately after the label). -/
def c6cexLines : List (List Char) :=
  [ "书名：".data, "某行".data, "：张三".data ]

/-- A line containing the character `群` but none of the markers listed
by the spec. -/
def c7cexLine : List Char := "鸡群".data

/-- The spec's example of a chapter-like line embedded in running
prose. -/
def c2exLine : List Char :=
  "第三章 表格司机叫熊威，山东济南人，十三年驾龄，唐洼子路线不慎驾车冲入水库，车上25人。".data

/-- A source-name fallback used by the concrete theorems. -/
def srcNameFB : List Char := "fallback".data

/-- Expected title of the sample. -/
def c3title : List Char := "示例书".data

/-- Expected author of the sample. -/
def c3author : List Char := "张三".data

/-- Expected intro of the sample (two lines joined by a newline). -/
def c3intro : List Char := "这是简介第一行。\n这是简介第二行。".data

/-- Expected content of the sample's first chapter. -/
def c3ch1lines : List (List Char) := [ "第一行内容".data, "第二行内容".data ]

/-- Expected content of the sample's second chapter. -/
def c3ch2lines : List (List Char) := [ "第三行内容".data ]

/-- A volume heading line used as concrete witness input. -/
def c8exLine : List Char := "第一卷 起始".data

/-- The assembler state after the synthesized `正文` chapter has been
opened and has accumulated `acc`, with no heading ever seen. -/
def asmZW (t : List Char) (a intro : Option (List Char))
    (acc : List (List Char)) : AsmSt :=
  { book := { title := t, author := a, intro := intro,
              rootChapters := [{ title := zhengWen, lines := acc, volume := none }],
              spine := [SpineEntry.chap none 0] },
    currentVolume := none,
    currentChapter := some (none, 0) }

/-- The disqualifying markers as the spec lists them (URLs via
`http`/`www`, then `QQ群`, `公众号`, `微信`, `下载`, `txt`, `整理`,
`校对`, `打包`, `本书`, `电子书`) — without the bare `群` alternative the
source's regex also contains. -/
def specListedMarkers : List (List Char) :=
  [['h', 't', 't', 'p'], ['w', 'w', 'w'], ['Q', 'Q', '群'],
   ['公', '众', '号'], ['微', '信'], ['下', '载'], ['t', 'x', 't'],
   ['整', '理'], ['校', '对'], ['打', '包'], ['本', '书'], ['电', '子', '书']]

/-!  ### Theorems  -/

/-- No heading pattern matches the empty (stripped) line. -/
lemma headingPatternAny_nil : headingPatternAny [] = false := by decide

/-- A line whose stripped text matches some heading pattern is
classified by the plausibility filter alone: `none` exactly when the
filter rejects. -/
lemma classify_none_iff (line : List Char) (prev next : Option (List Char))
    (h : headingPatternAny (pyStrip line) = true) :
    (classifyHeading line prev next = none ↔
      isLikelyHeadingLine line prev next = false) := by
  have hne : (pyStrip line).isEmpty = false := by
    cases hE : (pyStrip line).isEmpty
    · rfl
    · rw [List.isEmpty_iff.mp hE, headingPatternAny_nil] at h; cases h
  unfold classifyHeading
  simp only [hne, Bool.false_eq_true, if_false]
  unfold headingPatternAny at h
  rcases h1 : chapterPatternsMatch (pyStrip line) <;>
    rcases h2 : specialMatch (pyStrip line) <;>
    rcases h3 : volumePatternsMatch (pyStrip line) <;>
    simp [h1, h2, h3] at h ⊢

/-- Helper: `diMarker` succeeds only on lines starting with `第`. -/
lemma diMarker_head {s : List Char} {m : Char} {t : List Char}
    (h : diMarker s = some (m, t)) : ∃ rest, s = '第' :: rest := by
  match s with
  | [] => simp [diMarker] at h
  | c :: rest =>
    by_cases hc : c = '第'
    · exact ⟨rest, by rw [hc]⟩
    · simp [diMarker, hc] at h

/-- Helper: a successful volume match starts with `第` or `卷`. -/
lemma volume_head {s : List Char} (h : volumePatternsMatch s = true) :
    ∃ c rest, s = c :: rest ∧ (c = '第' ∨ c = '卷') := by
  unfold volumePatternsMatch at h
  rw [Bool.or_eq_true] at h
  rcases h with h | h
  · rcases hdm : diMarker s with _ | ⟨m, t⟩
    · rw [hdm] at h; cases h
    · obtain ⟨rest, hs⟩ := diMarker_head hdm
      exact ⟨'第', rest, hs, Or.inl rfl⟩
  · match s with
    | [] => simp [volumeJuanMatch] at h
    | c :: rest =>
      by_cases hc : c = '卷'
      · exact ⟨c, rest, rfl, Or.inr hc⟩
      · simp [volumeJuanMatch, hc] at h

/-- Helper: a prefix of a prefix is a prefix. -/
lemma hasPrefixL_of_append {a b s : List Char}
    (h : hasPrefixL (a ++ b) s = true) : hasPrefixL a s = true := by
  induction a generalizing s with
  | nil => rfl
  | cons p ps ih =>
    match s with
    | [] => simp [hasPrefixL] at h
    | c :: cs =>
      rw [List.cons_append] at h
      unfold hasPrefixL at h ⊢
      rw [Bool.and_eq_true] at h ⊢
      exact ⟨h.1, ih h.2⟩

/-- Helper: every list is a prefix of itself. -/
lemma hasPrefixL_self (l : List Char) : hasPrefixL l l = true := by
  induction l with
  | nil => rfl
  | cons c cs ih => unfold hasPrefixL; rw [Bool.and_eq_true]; exact ⟨by simp, ih⟩

/-- Helper: a special-heading match exhibits a keyword prefix. -/
lemma special_match_head {s : List Char} (h : specialMatch s = true) :
    ∃ kw, kw ∈ specialKeywords ∧ hasPrefixL kw s = true := by
  unfold specialMatch at h
  rw [List.any_eq_true] at h
  obtain ⟨kw, hkw, hcond⟩ := h
  refine ⟨kw, hkw, ?_⟩
  simp only [Bool.or_eq_true, beq_iff_eq] at hcond
  rcases hcond with ((heq | h) | h) | h
  · exact heq ▸ hasPrefixL_self kw
  · exact hasPrefixL_of_append h
  · exact hasPrefixL_of_append h
  · exact hasPrefixL_of_append h

/-- Helper: no special keyword starts with `第` or `卷`, so special
matching fails on such lines. -/
lemma special_not_of_head {c : Char} {rest : List Char}
    (hc : c = '第' ∨ c = '卷') : specialMatch (c :: rest) = false := by
  cases hsm : specialMatch (c :: rest)
  · rfl
  · exfalso
    obtain ⟨kw, hkw, hpre⟩ := special_match_head hsm
    rcases hc with rfl | rfl <;> fin_cases hkw <;>
      · simp only [hasPrefixL, Bool.and_eq_true, beq_iff_eq] at hpre
        exact absurd hpre.1 (by decide)

/-- Helper: a conjunction with false left operand is false. -/
lemma and_false_of_left {a b : Bool} (h : a = false) : (a && b) = false := by
  rw [h]; rfl

/-- Helper: `Chapter N` matching fails when the first character does not
case-fold to `c`. -/
lemma chapterEn_false_of_head {c : Char} {rest : List Char}
    (h : (c.toLower == 'c') = false) : chapterEnMatch (c :: rest) = false := by
  simp [chapterEnMatch, hasPrefixCI, h]

/-- Helper: the chapter patterns and the volume patterns are mutually
exclusive (markers `章/节/回` vs `卷/部`, lead `Chapter` vs `第/卷`). -/
lemma chapter_false_of_volume {s : List Char}
    (h : volumePatternsMatch s = true) : chapterPatternsMatch s = false := by
  unfold volumePatternsMatch at h
  rw [Bool.or_eq_true] at h
  unfold chapterPatternsMatch
  rcases h with h | h
  · rcases hdm : diMarker s with _ | ⟨m, t⟩
    · rw [hdm] at h; cases h
    · rw [hdm] at h
      rw [Bool.and_eq_true, Bool.or_eq_true, beq_iff_eq, beq_iff_eq] at h
      obtain ⟨rest, hs⟩ := diMarker_head hdm
      have hen : chapterEnMatch s = false := by
        rw [hs]; exact chapterEn_false_of_head (by decide)
      simp only [hdm, hen, Bool.or_false]
      rcases h.1 with rfl | rfl
      · exact and_false_of_left (by decide)
      · exact and_false_of_left (by decide)
  · have hj : ∃ rest, s = '卷' :: rest := by
      match s with
      | [] => simp [volumeJuanMatch] at h
      | c :: rest =>
        by_cases hc : c = '卷'
        · exact ⟨rest, by rw [hc]⟩
        · simp [volumeJuanMatch, hc] at h
    obtain ⟨rest, hs⟩ := hj
    subst hs
    have hdm : diMarker ('卷' :: rest) = none := by simp [diMarker]
    have hen : chapterEnMatch ('卷' :: rest) = false :=
      chapterEn_false_of_head (by decide)
    simp [hdm, hen]

/-- C2: for a line matching some heading pattern, the classifier rejects
(returns `none`) iff the line is not isolated (both neighbors exist and
are non-blank) and it ends in `。`/`！`/`？`, or exceeds 40 characters, or
has more than one comma (`，`/`,`); an isolated pattern line is accepted
without those checks. -/
theorem c2_plausibility_filter (line : List Char) (prev next : Option (List Char))
    (h : headingPatternAny (pyStrip line) = true) :
    (classifyHeading line prev next = none ↔
      ((isBlankOpt prev || isBlankOpt next) = false ∧
        (endsSentencePunct (pyStrip line) = true ∨
          HEADING_MAX_LEN < (pyStrip line).length ∨
          HEADING_MAX_COMMAS < countCommas (pyStrip line)))) := by
  rw [classify_none_iff line prev next h]
  have hne : (pyStrip line).isEmpty = false := by
    cases hE : (pyStrip line).isEmpty
    · rfl
    · rw [List.isEmpty_iff.mp hE, headingPatternAny_nil] at h; cases h
  unfold isLikelyHeadingLine
  simp only [hne, Bool.false_eq_true, if_false]
  cases hI : (isBlankOpt prev || isBlankOpt next) <;>
    cases hA : endsSentencePunct (pyStrip line) <;>
    by_cases hB : HEADING_MAX_LEN < (pyStrip line).length <;>
    by_cases hC : HEADING_MAX_COMMAS < countCommas (pyStrip line) <;>
    simp [hA, hB, hC]

/-- Witness for C2: the spec's embedded prose line matches a chapter
pattern yet is rejected between two non-blank neighbors. -/
theorem c2_plausibility_filter_witness :
    headingPatternAny (pyStrip c2exLine) = true ∧
    classifyHeading c2exLine (some ['x']) (some ['y']) = none := by
  refine ⟨by decide, ?_⟩
  exact (c2_plausibility_filter c2exLine (some ['x']) (some ['y'])
    (by decide)).mpr (by decide)

/-- C8: any line whose stripped text matches a volume pattern is
classified as a volume whenever the plausibility filter accepts it, and
never as a chapter — the chapter patterns, special keywords and volume
patterns are mutually exclusive, so the classifier's check order cannot
reroute it. -/
theorem c8_volume_wins (line : List Char) (prev next : Option (List Char))
    (h : volumePatternsMatch (pyStrip line) = true) :
    classifyHeading line prev next =
      (if isLikelyHeadingLine line prev next then some HeadKind.volume
       else none) := by
  obtain ⟨c, rest, hs, hc⟩ := volume_head h
  have hne : (pyStrip line).isEmpty = false := by rw [hs]; rfl
  have hch : chapterPatternsMatch (pyStrip line) = false := chapter_false_of_volume h
  have hsp : specialMatch (pyStrip line) = false := by
    rw [hs]; exact special_not_of_head hc
  unfold classifyHeading
  simp [hne, hch, hsp, h]

/-- Witness for C8: `第一卷 起始` with a blank previous line is classified
as a volume. -/
theorem c8_volume_wins_witness :
    volumePatternsMatch (pyStrip c8exLine) = true ∧
    classifyHeading c8exLine none (some "第一章 章一".data) = some HeadKind.volume := by
  have hv : volumePatternsMatch (pyStrip c8exLine) = true := by decide
  refine ⟨hv, ?_⟩
  rw [c8_volume_wins c8exLine none _ hv]
  decide

/-- Helper: the empty line matches no label alternative. -/
lemma labelMatch_nil : labelMatch [] = none := by decide

/-- Counterexample for C5: the line `作\t者：张三` matches the label
pattern with the author label written as `作`, whitespace, `者` and a
non-empty value, yet `parse_metadata` leaves the author unset (the
captured label `作\t者` fails the exact membership test
`label in ("作者", "作 者")` and the line is routed to the synopsis
branch instead). -/
theorem c5_cex_author_tab_variant :
    labelMatch (pyStrip c5cexLine) = some (['作', '\t', '者'], ['张', '三']) ∧
    (parseMetadata [c5cexLine]).2.1 = none ∧
    (parseMetadata [c5cexLine]).2.2.1 = some ['张', '三'] := by
  refine ⟨?_, ?_, ?_⟩ <;> rfl

/-- C5 (amended): outside synopsis-collecting mode, a label line with
non-empty value sets the title when the label is exactly `书名`, sets the
author when the label is exactly `作者` or `作 者` (single ASCII space),
and otherwise — including all other spacing variants of `作…者` — is
routed to the synopsis branch, appending the value to the intro buffer
and entering synopsis mode. -/
theorem c5_label_line_fields (lines : List (List Char)) (i : Nat) (st : MetaSt)
    (lab value : List Char)
    (hni : st.inIntro = false)
    (hm : labelMatch (pyStrip (lineAt lines i)) = some (lab, value))
    (hv : value ≠ []) :
    (lab = labShuMing → (metaStep lines i st).1.title = some value) ∧
    ((lab = labZuoZhe ∨ lab = labZuoZheSp) →
      (metaStep lines i st).1.author = some value) ∧
    ((lab ≠ labShuMing ∧ lab ≠ labZuoZhe ∧ lab ≠ labZuoZheSp) →
      (metaStep lines i st).1.introLines = st.introLines ++ [value] ∧
      (metaStep lines i st).1.inIntro = true) := by
  have hs : pyStrip (lineAt lines i) ≠ [] := by
    intro hN
    rw [hN, labelMatch_nil] at hm
    cases hm
  unfold metaStep
  simp only [hm, hni, Bool.false_eq_true, if_false, if_neg hs]
  refine ⟨?_, ?_, ?_⟩
  · intro hl
    simp [if_pos hl, if_pos hv]
  · intro hl
    have hne : lab ≠ labShuMing := by
      rcases hl with rfl | rfl <;> decide
    simp [if_neg hne, if_pos hl, if_pos hv]
  · intro ⟨h1, h2, h3⟩
    have hor : ¬(lab = labZuoZhe ∨ lab = labZuoZheSp) := by
      rintro (h | h) <;> contradiction
    simp [if_neg h1, if_neg hor, if_pos hv]

/-- Witness for C5 (amended): at the initial state, `作者：张三` sets the
author to `张三`. -/
theorem c5_label_line_fields_witness :
    (metaStep [ "作者：张三".data ] 0 {}).1.author = some ['张', '三'] := by
  have h := c5_label_line_fields [ "作者：张三".data ] 0 {}
    labZuoZhe ['张', '三'] rfl (by decide) (by decide)
  exact h.2.1 (Or.inl rfl)

/-- Counterexample for C6: with input `书名：`, `某行`, `：张三` the colon
line is not the line immediately following the empty-valued label (the
intervening line `某行` does not begin with a colon), yet it still
supplies the title, because the pending label persists. -/
theorem c6_cex_pending_persists :
    colonHead (pyStrip (lineAt c6cexLines 1)) = false ∧
    (parseMetadata c6cexLines).1 = some ['张', '三'] := by
  refine ⟨?_, ?_⟩ <;> rfl

/-- C6 (amended): an empty-valued title/author label leaves a pending
label; the pending label survives any later non-label, non-colon line
unchanged, and the first later line beginning with `：` or `:` supplies
the pending field's value (when non-empty) and clears the pending state
— the supplying line need not be the immediately following one. -/
theorem c6_pending_label_rule (lines : List (List Char)) (i : Nat) (st : MetaSt)
    (p : Pend)
    (hni : st.inIntro = false)
    (hp : st.pendingLabel = some p)
    (hs : pyStrip (lineAt lines i) ≠ [])
    (hnl : labelMatch (pyStrip (lineAt lines i)) = none)
    (hnb : pyStrip (lineAt lines i) ∉ bareLabelForms) :
    (colonHead (pyStrip (lineAt lines i)) = true →
      (metaStep lines i st).1.pendingLabel = none ∧
      (p = Pend.title → pyStrip (pyStrip (lineAt lines i)).tail ≠ [] →
        (metaStep lines i st).1.title =
          some (pyStrip (pyStrip (lineAt lines i)).tail)) ∧
      (p = Pend.author → pyStrip (pyStrip (lineAt lines i)).tail ≠ [] →
        (metaStep lines i st).1.author =
          some (pyStrip (pyStrip (lineAt lines i)).tail))) ∧
    (colonHead (pyStrip (lineAt lines i)) = false →
      (metaStep lines i st).1.pendingLabel = some p) := by
  simp only [bareLabelForms, synopsisLabels, List.mem_append, List.mem_cons,
    List.not_mem_nil, or_false, not_or] at hnb
  obtain ⟨⟨hb1, hb2, hb3, hb4⟩, hb5, hb6, hb7, hb8⟩ := hnb
  have hq1 : ¬(pyStrip (lineAt lines i) = labShuMing ∨
      pyStrip (lineAt lines i) = labShuMingSp) := by
    rintro (h | h) <;> [exact hb1 h; exact hb2 h]
  have hq2 : ¬(pyStrip (lineAt lines i) = labZuoZhe ∨
      pyStrip (lineAt lines i) = labZuoZheSp) := by
    rintro (h | h) <;> [exact hb3 h; exact hb4 h]
  have hq3 : pyStrip (lineAt lines i) ∉ synopsisLabels := by
    simp only [synopsisLabels, List.mem_cons, List.not_mem_nil, or_false, not_or]
    exact ⟨hb5, hb6, hb7, hb8⟩
  constructor
  · intro hch
    unfold metaStep
    simp only [hnl, hni, Bool.false_eq_true, if_false, if_neg hs, if_neg hq1,
      if_neg hq2, if_neg hq3]
    have hcond : st.pendingLabel.isSome = true ∧
        colonHead (pyStrip (lineAt lines i)) = true := by
      rw [hp]; exact ⟨rfl, hch⟩
    rw [if_pos hcond]
    refine ⟨?_, ?_, ?_⟩
    · by_cases h1 : st.pendingLabel = some Pend.title ∧
          pyStrip (pyStrip (lineAt lines i)).tail ≠ []
      · rw [if_pos h1]
      · rw [if_neg h1]
        by_cases h2 : st.pendingLabel = some Pend.author ∧
            pyStrip (pyStrip (lineAt lines i)).tail ≠ []
        · rw [if_pos h2]
        · rw [if_neg h2]
    · intro hpt hval
      have hc : st.pendingLabel = some Pend.title ∧
          pyStrip (pyStrip (lineAt lines i)).tail ≠ [] := ⟨by rw [hp, hpt], hval⟩
      rw [if_pos hc]
    · intro hpt hval
      have hT : ¬(st.pendingLabel = some Pend.title ∧
          pyStrip (pyStrip (lineAt lines i)).tail ≠ []) := by
        rw [hp, hpt]; rintro ⟨h, _⟩; cases h
      have hA : st.pendingLabel = some Pend.author ∧
          pyStrip (pyStrip (lineAt lines i)).tail ≠ [] := ⟨by rw [hp, hpt], hval⟩
      rw [if_neg hT, if_pos hA]
  · intro hch
    unfold metaStep
    simp only [hnl, hni, Bool.false_eq_true, if_false, if_neg hs, if_neg hq1,
      if_neg hq2, if_neg hq3]
    have hcond : ¬(st.pendingLabel.isSome = true ∧
        colonHead (pyStrip (lineAt lines i)) = true) := by
      rintro ⟨_, hc⟩; rw [hch] at hc; cases hc
    rw [if_neg hcond]
    cases hto : titleOnlyMatch (pyStrip (lineAt lines i)) with
    | none => simpa using hp
    | some mid =>
      by_cases ht : st.title = none
      · simp [if_pos ht, hp]
      · simp [if_neg ht, hp]

/-- Witness for C6 (amended): with a pending title label, the line
`：张三` supplies the title and clears the pending state, while the line
`某行` leaves the pending label untouched. -/
theorem c6_pending_label_rule_witness :
    ((metaStep [ "：张三".data ] 0 { pendingLabel := some Pend.title }).1.title =
      some ['张', '三'] ∧
     (metaStep [ "：张三".data ] 0
        { pendingLabel := some Pend.title }).1.pendingLabel = none) ∧
    (metaStep [ "某行".data ] 0
        { pendingLabel := some Pend.title }).1.pendingLabel =
      some Pend.title := by
  have h1 := c6_pending_label_rule [ "：张三".data ] 0
    { pendingLabel := some Pend.title } Pend.title rfl rfl (by decide) (by decide)
    (by decide)
  have h2 := c6_pending_label_rule [ "某行".data ] 0
    { pendingLabel := some Pend.title } Pend.title rfl rfl (by decide) (by decide)
    (by decide)
  refine ⟨⟨?_, ?_⟩, ?_⟩
  · exact (h1.1 (by decide)).2.1 rfl (by decide)
  · exact (h1.1 (by decide)).1
  · exact h2.2 (by decide)

/-- Counterexample for C7: `鸡群` contains none of the markers the spec
lists, yet the source's extra bare-`群` alternative disqualifies it: it
is not recorded as a candidate, and consequently a document whose only
metadata-scope line it is gets no title from it. -/
theorem c7_cex_bare_qun :
    (∀ m ∈ specListedMarkers, containsSub m c7cexLine = false) ∧
    skipMatch c7cexLine = true ∧
    (metaStep [c7cexLine] 0 {}).1.candidates = [] ∧
    (metaStep [c7cexLine] 0 {}).1.nonEmptySeen = 1 ∧
    (parseMetadata [c7cexLine]).1 = none := by
  refine ⟨?_, ?_, ?_, ?_, ?_⟩ <;> decide

/-- C7 (amended): a non-empty line reaching the candidate stage (not
consumed by any earlier rule) is recorded as a candidate iff it is among
the first six such lines and `SKIP_CANDIDATE_RE` finds no marker in it —
where the marker list is the spec's list plus the bare substring `群`. -/
theorem c7_candidate_rule (lines : List (List Char)) (i : Nat) (st : MetaSt)
    (hni : st.inIntro = false)
    (hs : pyStrip (lineAt lines i) ≠ [])
    (hnl : labelMatch (pyStrip (lineAt lines i)) = none)
    (hnb : pyStrip (lineAt lines i) ∉ bareLabelForms)
    (hnp : ¬(st.pendingLabel.isSome = true ∧
      colonHead (pyStrip (lineAt lines i)) = true))
    (hto : titleOnlyMatch (pyStrip (lineAt lines i)) = none ∨ st.title ≠ none) :
    (metaStep lines i st).1.candidates =
      (if st.nonEmptySeen + 1 ≤ 6 ∧ skipMatch (pyStrip (lineAt lines i)) = false
       then st.candidates ++ [(i, pyStrip (lineAt lines i))]
       else st.candidates) ∧
    (metaStep lines i st).1.nonEmptySeen = st.nonEmptySeen + 1 := by
  simp only [bareLabelForms, synopsisLabels, List.mem_append, List.mem_cons,
    List.not_mem_nil, or_false, not_or] at hnb
  obtain ⟨⟨hb1, hb2, hb3, hb4⟩, hb5, hb6, hb7, hb8⟩ := hnb
  have hq1 : ¬(pyStrip (lineAt lines i) = labShuMing ∨
      pyStrip (lineAt lines i) = labShuMingSp) := by
    rintro (h | h) <;> [exact hb1 h; exact hb2 h]
  have hq2 : ¬(pyStrip (lineAt lines i) = labZuoZhe ∨
      pyStrip (lineAt lines i) = labZuoZheSp) := by
    rintro (h | h) <;> [exact hb3 h; exact hb4 h]
  have hq3 : pyStrip (lineAt lines i) ∉ synopsisLabels := by
    simp only [synopsisLabels, List.mem_cons, List.not_mem_nil, or_false, not_or]
    exact ⟨hb5, hb6, hb7, hb8⟩
  unfold metaStep
  simp only [hnl, hni, Bool.false_eq_true, if_false, if_neg hs, if_neg hq1,
    if_neg hq2, if_neg hq3, if_neg hnp]
  rcases hto with hto | hto
  · simp [hto]
  · cases htom : titleOnlyMatch (pyStrip (lineAt lines i)) with
    | none => simp
    | some mid => simp [if_neg hto]

/-- Witness for C7 (amended): at the initial state the line `你好` is
recorded as the first candidate. -/
theorem c7_candidate_rule_witness :
    (metaStep [ "你好".data ] 0 {}).1.candidates = [(0, ['你', '好'])] ∧
    (metaStep [ "你好".data ] 0 {}).1.nonEmptySeen = 1 := by
  have h := c7_candidate_rule [ "你好".data ] 0 {} rfl (by decide) (by decide)
    (by decide) (by decide) (Or.inl (by decide))
  refine ⟨?_, h.2⟩
  rw [h.1]
  decide

/-- Helper: a line matching no heading pattern is never classified as a
heading, in any neighbor context. -/
lemma classify_none_of_no_pattern (line : List Char) (prev next : Option (List Char))
    (h : headingPatternAny (pyStrip line) = false) :
    classifyHeading line prev next = none := by
  unfold headingPatternAny at h
  rcases h1 : chapterPatternsMatch (pyStrip line) <;> rw [h1] at h
  · rcases h2 : specialMatch (pyStrip line) <;> rw [h2] at h
    · rcases h3 : volumePatternsMatch (pyStrip line) <;> rw [h3] at h
      · unfold classifyHeading
        by_cases hE : (pyStrip line).isEmpty <;> simp [hE, h1, h2, h3]
      · cases h
    · cases h
  · cases h

/-- Helper: members of `enumFrom` carry members of the list. -/
lemma snd_mem_of_mem_enumFrom {α : Type} :
    ∀ {l : List α} {n : Nat} {p : Nat × α}, p ∈ l.enumFrom n → p.2 ∈ l := by
  intro l
  induction l with
  | nil => intro n p h; simp [List.enumFrom] at h
  | cons a as ih =>
    intro n p h
    rw [List.enumFrom_cons] at h
    rcases List.mem_cons.mp h with rfl | h
    · exact List.mem_cons_self a as
    · exact List.mem_cons_of_mem a (ih h)

/-- Helper: members of `enum` carry members of the list. -/
lemma snd_mem_of_mem_enum {α : Type} {l : List α} {p : Nat × α}
    (h : p ∈ l.enum) : p.2 ∈ l :=
  snd_mem_of_mem_enumFrom h

/-- Helper: `dropWhile` keeps only members. -/
lemma mem_of_mem_dropWhile {α : Type} {q : α → Bool} :
    ∀ {l : List α} {x : α}, x ∈ l.dropWhile q → x ∈ l := by
  intro l
  induction l with
  | nil => intro x h; simp [List.dropWhile] at h
  | cons a as ih =>
    intro x h
    rw [List.dropWhile_cons] at h
    by_cases hq : q a
    · simp only [hq, if_true] at h
      exact List.mem_cons_of_mem a (ih h)
    · simp only [hq, Bool.false_eq_true, if_false] at h
      exact h

/-- Helper: every body line is one of the original lines. -/
lemma bodyLines_subset {lines : List (List Char)} {skip : List Nat}
    {l : List Char} (h : l ∈ bodyLines lines skip) : l ∈ lines := by
  unfold bodyLines at h
  have h1 := mem_of_mem_dropWhile h
  rcases List.mem_map.mp h1 with ⟨p, hp, rfl⟩
  exact snd_mem_of_mem_enum (List.mem_of_mem_filter hp)

/-- Helper: one unfolding step of `normalizedContents`. -/
lemma normalizedContents_cons (l : List Char) (rest : List (List Char)) :
    normalizedContents (l :: rest) =
      (if normalizeContentLine l = [] then normalizedContents rest
       else normalizeContentLine l :: normalizedContents rest) := by
  unfold normalizedContents
  rw [List.map_cons, List.filter_cons]
  by_cases h : normalizeContentLine l = []
  · simp [h]
  · simp [h]

/-- Helper: a no-pattern line steps the open-`正文` state by appending
its normalized content (or nothing). -/
lemma asmStep_zw (l : List Char) (prev nx : Option (List Char))
    (t : List Char) (a intro : Option (List Char)) (acc : List (List Char))
    (h : headingPatternAny (pyStrip l) = false) :
    asmStep l prev nx (asmZW t a intro acc) =
      (if normalizeContentLine l = [] then asmZW t a intro acc
       else asmZW t a intro (acc ++ [normalizeContentLine l])) := by
  unfold asmStep
  rw [classify_none_of_no_pattern l prev nx h]
  by_cases hc : normalizeContentLine l = []
  · simp [hc]
  · simp [hc, asmZW, appendToChapter, updateAt]

/-- Helper: a no-pattern line steps the pristine initial state either
not at all or into the open-`正文` state. -/
lemma asmStep_init (l : List Char) (prev nx : Option (List Char))
    (t : List Char) (a intro : Option (List Char))
    (h : headingPatternAny (pyStrip l) = false) :
    asmStep l prev nx (asmInit t a intro) =
      (if normalizeContentLine l = [] then asmInit t a intro
       else asmZW t a intro [normalizeContentLine l]) := by
  unfold asmStep
  rw [classify_none_of_no_pattern l prev nx h]
  by_cases hc : normalizeContentLine l = []
  · simp [hc]
  · simp [hc, asmInit, asmZW, startChapter, appendToChapter, updateAt]

/-- Helper: with no pattern line in sight, the loop only accumulates
content into the open `正文` chapter. -/
lemma bodyLoop_zw (t : List Char) (a intro : Option (List Char)) :
    ∀ (ls : List (List Char)) (prev : Option (List Char)) (acc : List (List Char)),
      (∀ l ∈ ls, headingPatternAny (pyStrip l) = false) →
      bodyLoop prev ls (asmZW t a intro acc) =
        asmZW t a intro (acc ++ normalizedContents ls) := by
  intro ls
  induction ls with
  | nil => intro prev acc _; simp [bodyLoop, normalizedContents]
  | cons l rest ih =>
    intro prev acc h
    have hl := h l (List.mem_cons_self l rest)
    have hrest : ∀ x ∈ rest, headingPatternAny (pyStrip x) = false :=
      fun x hx => h x (List.mem_cons_of_mem l hx)
    unfold bodyLoop
    rw [asmStep_zw l prev rest.head? t a intro acc hl, normalizedContents_cons]
    by_cases hc : normalizeContentLine l = []
    · rw [if_pos hc, if_pos hc, ih (some l) acc hrest]
    · rw [if_neg hc, if_neg hc, ih (some l) (acc ++ [normalizeContentLine l]) hrest,
        List.append_assoc]
      rfl

/-- Helper: with no pattern line in sight, the loop starting from the
pristine state produces exactly the single synthesized chapter (or
nothing at all when no content survives normalization). -/
lemma bodyLoop_init (t : List Char) (a intro : Option (List Char)) :
    ∀ (ls : List (List Char)) (prev : Option (List Char)),
      (∀ l ∈ ls, headingPatternAny (pyStrip l) = false) →
      bodyLoop prev ls (asmInit t a intro) =
        (if normalizedContents ls = [] then asmInit t a intro
         else asmZW t a intro (normalizedContents ls)) := by
  intro ls
  induction ls with
  | nil => intro prev _; simp [bodyLoop, normalizedContents]
  | cons l rest ih =>
    intro prev h
    have hl := h l (List.mem_cons_self l rest)
    have hrest : ∀ x ∈ rest, headingPatternAny (pyStrip x) = false :=
      fun x hx => h x (List.mem_cons_of_mem l hx)
    unfold bodyLoop
    rw [asmStep_init l prev rest.head? t a intro hl, normalizedContents_cons]
    by_cases hc : normalizeContentLine l = []
    · rw [if_pos hc, if_pos hc, ih (some l) hrest]
    · rw [if_neg hc, if_neg hc,
        bodyLoop_zw t a intro rest (some l) [normalizeContentLine l] hrest,
        if_neg (List.cons_ne_nil _ _)]
      rfl

/-- Helper: a plain line (no label, no bare label, no pending colon
taken since no pending, no title-only form) leaves intro mode off,
pending unset, and the skip set untouched. -/
lemma metaStep_plain (lines : List (List Char)) (i : Nat) (st : MetaSt)
    (hIn : st.inIntro = false) (hp : st.pendingLabel = none)
    (hlab : labelMatch (pyStrip (lineAt lines i)) = none)
    (hbare : pyStrip (lineAt lines i) ∉ bareLabelForms)
    (hto : titleOnlyMatch (pyStrip (lineAt lines i)) = none) :
    (metaStep lines i st).2 = true ∧
    (metaStep lines i st).1.inIntro = false ∧
    (metaStep lines i st).1.pendingLabel = none ∧
    (metaStep lines i st).1.skipIdx = st.skipIdx := by
  simp only [bareLabelForms, synopsisLabels, List.mem_append, List.mem_cons,
    List.not_mem_nil, or_false, not_or] at hbare
  obtain ⟨⟨hb1, hb2, hb3, hb4⟩, hb5, hb6, hb7, hb8⟩ := hbare
  have hq1 : ¬(pyStrip (lineAt lines i) = labShuMing ∨
      pyStrip (lineAt lines i) = labShuMingSp) := by
    rintro (h | h) <;> [exact hb1 h; exact hb2 h]
  have hq2 : ¬(pyStrip (lineAt lines i) = labZuoZhe ∨
      pyStrip (lineAt lines i) = labZuoZheSp) := by
    rintro (h | h) <;> [exact hb3 h; exact hb4 h]
  have hq3 : pyStrip (lineAt lines i) ∉ synopsisLabels := by
    simp only [synopsisLabels, List.mem_cons, List.not_mem_nil, or_false, not_or]
    exact ⟨hb5, hb6, hb7, hb8⟩
  have hnp : ¬(st.pendingLabel.isSome = true ∧
      colonHead (pyStrip (lineAt lines i)) = true) := by
    rintro ⟨hx, _⟩; rw [hp] at hx; cases hx
  unfold metaStep
  by_cases hs : pyStrip (lineAt lines i) = []
  · rw [if_pos hs]
    have : ¬(st.inIntro = true ∧ st.introLines ≠ []) := by
      rintro ⟨hx, _⟩; rw [hIn] at hx; cases hx
    rw [if_neg this]
    exact ⟨rfl, hIn, hp, rfl⟩
  · simp only [if_neg hs, hIn, Bool.false_eq_true, if_false, hlab, if_neg hq1,
      if_neg hq2, if_neg hq3, if_neg hnp, hto]
    exact ⟨trivial, trivial, hp, trivial⟩

/-- Helper: elements of `getD` at valid indices are members. -/
lemma lineAt_mem {lines : List (List Char)} {i : Nat} (h : i < lines.length) :
    lineAt lines i ∈ lines := by
  unfold lineAt
  rw [List.getD_eq_getElem _ _ h]
  exact List.getElem_mem h

/-- Helper: the scan limit never exceeds the number of lines. -/
lemma scanLimit_le_length (lines : List (List Char)) :
    scanLimit lines ≤ lines.length := by
  unfold scanLimit firstHeadingIdx
  rcases h : (List.range lines.length).find? (fun i =>
      isHeading (lineAt lines i) (prevAt lines i) (nextAt lines i)) with _ | i
  · simp
  · simp only [Option.getD_some]
    exact le_of_lt (List.mem_range.mp (List.mem_of_find?_eq_some h))

/-- Helper: under the plain-line hypotheses, the metadata scan loop
keeps the intro mode off, the pending label unset, and the skip set
empty. -/
lemma metaLoop_plain (lines : List (List Char))
    (H2 : ∀ l ∈ lines, labelMatch (pyStrip l) = none)
    (H3 : ∀ l ∈ lines, pyStrip l ∉ bareLabelForms)
    (H4 : ∀ l ∈ lines, titleOnlyMatch (pyStrip l) = none) :
    ∀ (idxs : List Nat) (st : MetaSt), (∀ i ∈ idxs, i < lines.length) →
      st.inIntro = false → st.pendingLabel = none →
      (metaLoop lines idxs st).inIntro = false ∧
      (metaLoop lines idxs st).pendingLabel = none ∧
      (metaLoop lines idxs st).skipIdx = st.skipIdx := by
  intro idxs
  induction idxs with
  | nil => intro st _ h1 h2; exact ⟨h1, h2, rfl⟩
  | cons i is ih =>
    intro st hIdx h1 h2
    have hi : i < lines.length := hIdx i (List.mem_cons_self i is)
    have hmem := lineAt_mem hi
    have hstep := metaStep_plain lines i st h1 h2 (H2 _ hmem) (H3 _ hmem) (H4 _ hmem)
    unfold metaLoop
    rcases hms : metaStep lines i st with ⟨st', cont⟩
    rw [hms] at hstep
    cases cont
    · exact absurd hstep.1 (by simp)
    · simp only []
      have hrest := ih st' (fun j hj => hIdx j (List.mem_cons_of_mem i hj))
        hstep.2.1 hstep.2.2.1
      exact ⟨hrest.1, hrest.2.1, hrest.2.2.trans hstep.2.2.2⟩

/-- Helper: post-processing adds at most two indices to the skip set. -/
lemma metaPost_skip_len (st : MetaSt) :
    (metaPost st).skipIdx.length ≤ st.skipIdx.length + 2 := by
  rcases hc : st.candidates with _ | ⟨⟨idx, v⟩, rest⟩
  · simp [metaPost, hc]
  · rcases rest with _ | ⟨⟨idx2, v2⟩, rest2⟩
    · rcases ht : st.title with _ | t
      · simp [metaPost, hc, ht, List.length_append]
      · simp [metaPost, hc, ht]
    · rcases ht : st.title with _ | t <;> rcases ha : st.author with _ | a <;>
        simp only [metaPost, hc, ht, ha] <;>
        first
          | (split_ifs <;> simp [List.length_append])
          | simp [List.length_append]

/-- Counterexample for C4: `aaa\nbbb` contains no heading-pattern line
and no metadata form, yet the resulting book has no root chapter at all
(both lines are consumed as the title/author candidates), contradicting
the claim's single chapter holding every content line. -/
theorem c4_cex_consumed_candidates :
    (∀ l ∈ splitlines c4cexText, headingPatternAny (pyStrip l) = false) ∧
    (∀ l ∈ splitlines c4cexText, labelMatch (pyStrip l) = none) ∧
    (∀ l ∈ splitlines c4cexText, pyStrip l ∉ bareLabelForms) ∧
    (∀ l ∈ splitlines c4cexText, titleOnlyMatch (pyStrip l) = none) ∧
    (∀ l ∈ splitlines c4cexText, normalizeContentLine l ≠ []) ∧
    (splitlines c4cexText).length = 2 ∧
    (parseBook c4cexText srcNameFB).rootChapters = [] := by
  refine ⟨?_, ?_, ?_, ?_, ?_, ?_, ?_⟩ <;> decide

/-- C4 (amended): when no line matches any heading pattern and no line
matches a label, bare-label or `《…》` form, the metadata pass consumes at
most two lines (the title/author candidates) and `parse_book` builds no
volume and exactly one root chapter, titled `正文`, holding the
normalized non-blank content of all remaining lines in order — or no
chapter at all when no content line remains. -/
theorem c4_single_chapter_fallback (text nm : List Char)
    (H1 : ∀ l ∈ splitlines text, headingPatternAny (pyStrip l) = false)
    (H2 : ∀ l ∈ splitlines text, labelMatch (pyStrip l) = none)
    (H3 : ∀ l ∈ splitlines text, pyStrip l ∉ bareLabelForms)
    (H4 : ∀ l ∈ splitlines text, titleOnlyMatch (pyStrip l) = none) :
    ((parseMetadata (splitlines text)).2.2.2).length ≤ 2 ∧
    (parseBook text nm).volumes = [] ∧
    (parseBook text nm).rootChapters =
      (if normalizedContents (bodyLines (splitlines text)
            (parseMetadata (splitlines text)).2.2.2) = []
       then []
       else [{ title := zhengWen,
               lines := normalizedContents (bodyLines (splitlines text)
                 (parseMetadata (splitlines text)).2.2.2),
               volume := none }]) := by
  have hIdx : ∀ i ∈ List.range (scanLimit (splitlines text)),
      i < (splitlines text).length :=
    fun i hi => lt_of_lt_of_le (List.mem_range.mp hi) (scanLimit_le_length _)
  have hloop := metaLoop_plain (splitlines text) H2 H3 H4
    (List.range (scanLimit (splitlines text))) {} hIdx rfl rfl
  have hlen : ((parseMetadata (splitlines text)).2.2.2).length ≤ 2 := by
    show (parseMetaState (splitlines text)).skipIdx.length ≤ 2
    unfold parseMetaState
    calc (metaPost (metaLoop (splitlines text)
            (List.range (scanLimit (splitlines text))) {})).skipIdx.length
        ≤ (metaLoop (splitlines text)
            (List.range (scanLimit (splitlines text))) {}).skipIdx.length + 2 :=
          metaPost_skip_len _
      _ ≤ 2 := by rw [hloop.2.2]; simp
  have hbody : ∀ l ∈ bodyLines (splitlines text)
      (parseMetadata (splitlines text)).2.2.2,
      headingPatternAny (pyStrip l) = false :=
    fun l hl => H1 l (bodyLines_subset hl)
  have hPB : parseBook text nm =
      (bodyLoop none
        (bodyLines (splitlines text) (parseMetadata (splitlines text)).2.2.2)
        (asmInit (bookTitleOf (parseMetadata (splitlines text)).1 nm)
          (parseMetadata (splitlines text)).2.1
          (parseMetadata (splitlines text)).2.2.1)).book := rfl
  rw [hPB,
    bodyLoop_init (bookTitleOf (parseMetadata (splitlines text)).1 nm)
      (parseMetadata (splitlines text)).2.1
      (parseMetadata (splitlines text)).2.2.1
      (bodyLines (splitlines text) (parseMetadata (splitlines text)).2.2.2)
      none hbody]
  refine ⟨hlen, ?_, ?_⟩ <;>
    by_cases hcont : normalizedContents (bodyLines (splitlines text)
        (parseMetadata (splitlines text)).2.2.2) = [] <;>
    simp [hcont, asmInit, asmZW]

/-- Witness for C4 (amended): on `aaa\nbbb\nccc` the first two lines are
consumed as candidates and the single synthesized chapter holds exactly
`ccc`. -/
theorem c4_single_chapter_fallback_witness :
    ((parseMetadata (splitlines c4witText)).2.2.2).length ≤ 2 ∧
    (parseBook c4witText srcNameFB).volumes = [] ∧
    (parseBook c4witText srcNameFB).rootChapters =
      [{ title := zhengWen, lines := [['c', 'c', 'c']], volume := none }] := by
  have h := c4_single_chapter_fallback c4witText srcNameFB
    (by decide) (by decide) (by decide) (by decide)
  refine ⟨h.1, h.2.1, ?_⟩
  rw [h.2.2]
  rfl

/-- Helper: a classified heading line matches some pattern. -/
lemma pattern_of_classify_some {l : List Char} {p n : Option (List Char)}
    {k : HeadKind} (h : classifyHeading l p n = some k) :
    headingPatternAny (pyStrip l) = true := by
  cases hp : headingPatternAny (pyStrip l)
  · rw [classify_none_of_no_pattern l p n hp] at h; cases h
  · rfl

/-- Helper: no heading line strips to the synthesized title `正文`. -/
lemma classify_title_ne_zhengwen {l : List Char} {p n : Option (List Char)}
    {k : HeadKind} (h : classifyHeading l p n = some k) : pyStrip l ≠ zhengWen := by
  intro he
  have hp := pattern_of_classify_some h
  rw [he] at hp
  exact absurd hp (by decide)

/-- Helper: `updateAt` with a predicate-preserving function preserves
`countP`. -/
lemma countP_updateAt {α : Type} (p : α → Bool) (f : α → α)
    (hf : ∀ a, p (f a) = p a) :
    ∀ (j : Nat) (l : List α), (updateAt j f l).countP p = l.countP p := by
  intro j l
  induction l generalizing j with
  | nil => simp [updateAt]
  | cons a as ih =>
    cases j with
    | zero => simp [updateAt, List.countP_cons, hf]
    | succ m => simp [updateAt, List.countP_cons, ih m]

/-- Helper: one step preserves the fallback invariant and agrees with
the fallback-free variant of the step. -/
lemma asmStep_c10 (l : List Char) (prev nx : Option (List Char)) (st : AsmSt)
    (h : asmFallbackInv st) :
    asmFallbackInv (asmStep l prev nx st) ∧
      asmStep l prev nx st = asmStepNF l prev nx st := by
  obtain ⟨hinv, hcount⟩ := h
  unfold asmStep asmStepNF
  cases hcl : classifyHeading l prev nx with
  | some k =>
    cases k with
    | volume =>
      refine ⟨⟨?_, ?_⟩, rfl⟩
      · rintro ⟨_, hcv⟩
        simp [startVolume] at hcv
      · simpa [startVolume] using hcount
    | chapter =>
      refine ⟨⟨?_, ?_⟩, rfl⟩
      · rintro ⟨hcc, _⟩
        unfold startChapter at hcc
        cases hcv : st.currentVolume with
        | some i => rw [hcv] at hcc; simp at hcc
        | none => rw [hcv] at hcc; simp at hcc
      · unfold startChapter
        cases hcv : st.currentVolume with
        | some i => simpa using hcount
        | none =>
          have hne : pyStrip l ≠ zhengWen := classify_title_ne_zhengwen hcl
          simp only [List.countP_append]
          have h0 : List.countP (fun c => c.title == zhengWen)
              [({ title := pyStrip l, volume := none } : Chapter)] = 0 := by
            simp [List.countP_cons, hne]
          rw [h0]
          simpa using hcount
  | none =>
    by_cases hc : normalizeContentLine l = []
    · rw [if_pos hc, if_pos hc]
      exact ⟨⟨hinv, hcount⟩, rfl⟩
    · rw [if_neg hc, if_neg hc]
      cases hcc : st.currentChapter with
      | some loc =>
        refine ⟨⟨?_, ?_⟩, rfl⟩
        · rintro ⟨hcc', _⟩
          simp [hcc] at hcc'
        · rcases loc with ⟨_ | i, j⟩
          · have hcp := countP_updateAt (fun c : Chapter => c.title == zhengWen)
              (fun c => { c with lines := c.lines ++ [normalizeContentLine l] })
              (fun a => rfl) j st.book.rootChapters
            simp only [appendToChapter]
            rw [hcp]
            exact hcount
          · simpa [appendToChapter] using hcount
      | none =>
        cases hcv : st.currentVolume with
        | some i =>
          refine ⟨⟨?_, ?_⟩, rfl⟩
          · rintro ⟨_, hcv'⟩
            simp [hcv] at hcv'
          · simpa [appendToVolume] using hcount
        | none =>
          obtain ⟨hroot, _⟩ := hinv ⟨hcc, hcv⟩
          rw [if_pos hroot]
          refine ⟨⟨?_, ?_⟩, rfl⟩
          · rintro ⟨hcc', _⟩
            simp [startChapter, hcv] at hcc'
          · simp [startChapter, hcv, appendToChapter, hroot, updateAt,
              List.countP_cons, List.countP_append, zhengWen]

/-- C10: along `parse_book`'s loop the invariant holds: whenever both
`current_chapter` and `current_volume` are unset, `root_chapters` (and
`volumes`) are empty; consequently the `book.root_chapters[-1]` fallback
branch is unreachable — the loop computes the same result as the variant
with that branch removed — and at most one root chapter ever carries the
synthesized title `正文`. -/
theorem c10_fallback_unreachable (ls : List (List Char))
    (prev : Option (List Char)) (st : AsmSt) (h : asmFallbackInv st) :
    asmFallbackInv (bodyLoop prev ls st) ∧
      bodyLoop prev ls st = bodyLoopNF prev ls st := by
  induction ls generalizing prev st with
  | nil => exact ⟨h, rfl⟩
  | cons l rest ih =>
    obtain ⟨hstep, heq⟩ := asmStep_c10 l prev rest.head? st h
    unfold bodyLoop bodyLoopNF
    obtain ⟨h1, h2⟩ := ih rest.head? (asmStep l prev rest.head? st) hstep
    refine ⟨?_, ?_⟩
    · -- prev argument is (some l) in the loop; the invariant claim is
      -- insensitive to it, recover via the generalized hypothesis
      exact (ih (some l) (asmStep l prev rest.head? st) hstep).1
    · rw [← heq]
      exact (ih (some l) (asmStep l prev rest.head? st) hstep).2

/-- Witness for C10: a pristine book state satisfies the invariant, and
on a small concrete run both loop variants agree. -/
theorem c10_fallback_unreachable_witness :
    asmFallbackInv (bodyLoop none [['a']] (asmInit ['t'] none none)) ∧
      bodyLoop none [['a']] (asmInit ['t'] none none) =
        bodyLoopNF none [['a']] (asmInit ['t'] none none) :=
  c10_fallback_unreachable [['a']] none (asmInit ['t'] none none)
    (by unfold asmFallbackInv; decide)

/-- Helper: `updateAt` preserves the length. -/
lemma updateAt_length {α : Type} (f : α → α) :
    ∀ (n : Nat) (l : List α), (updateAt n f l).length = l.length := by
  intro n l
  induction l generalizing n with
  | nil => simp [updateAt]
  | cons a as ih =>
    cases n with
    | zero => simp [updateAt]
    | succ m => simp [updateAt, ih m]

/-- Helper: `updateAt` with an observation-preserving function leaves
`map` unchanged. -/
lemma map_updateAt_eq {α β : Type} (f : α → α) (g : α → β)
    (hf : ∀ a, g (f a) = g a) :
    ∀ (n : Nat) (l : List α), (updateAt n f l).map g = l.map g := by
  intro n l
  induction l generalizing n with
  | nil => simp [updateAt]
  | cons a as ih =>
    cases n with
    | zero => simp [updateAt, hf]
    | succ m => simp [updateAt, ih m]

/-- Helper: pointwise description of `updateAt` through `get?`. -/
lemma get?_updateAt {α : Type} (f : α → α) :
    ∀ (n : Nat) (l : List α) (i : Nat),
      (updateAt n f l).get? i = if i = n then (l.get? i).map f else l.get? i := by
  intro n l
  induction l generalizing n with
  | nil => intro i; simp [updateAt]
  | cons a as ih =>
    intro i
    cases n with
    | zero =>
      cases i with
      | zero => simp [updateAt]
      | succ i => simp [updateAt]
    | succ m =>
      cases i with
      | zero => simp [updateAt]
      | succ i => simpa [updateAt] using ih m i

/-- Helper: `updateAt` preserves a membership-wise property when the
update function does. -/
lemma forall_mem_updateAt {α : Type} (P : α → Prop) (f : α → α)
    (hf : ∀ a, P a → P (f a)) :
    ∀ (n : Nat) (l : List α), (∀ x ∈ l, P x) → ∀ x ∈ updateAt n f l, P x := by
  intro n l
  induction l generalizing n with
  | nil => intro h x hx; simp [updateAt] at hx
  | cons a as ih =>
    intro h x hx
    cases n with
    | zero =>
      rcases List.mem_cons.mp hx with rfl | hx
      · exact hf a (h a (List.mem_cons_self a as))
      · exact h x (List.mem_cons_of_mem a hx)
    | succ m =>
      rcases List.mem_cons.mp hx with rfl | hx
      · exact h x (List.mem_cons_self x as)
      · exact ih m (fun y hy => h y (List.mem_cons_of_mem a hy)) x hx

/-- Helper: updating the last element of a concatenation. -/
lemma updateAt_concat_self {α : Type} (f : α → α) :
    ∀ (l : List α) (a : α), updateAt l.length f (l ++ [a]) = l ++ [f a] := by
  intro l a
  induction l with
  | nil => simp [updateAt]
  | cons b bs ih => simp [updateAt, ih]

/-- Helper: `getD` at the concatenation's last position. -/
lemma getD_concat_self {α : Type} (l : List α) (a d : α) :
    (l ++ [a]).getD l.length d = a := by
  induction l with
  | nil => rfl
  | cons b bs ih => simp [ih]

/-- Helper: appending an empty volume block to the canonical spine. -/
lemma canonicalSpine_concat_vol (r : Nat) (ns : List Nat) :
    canonicalSpine r (ns ++ [0]) =
      canonicalSpine r ns ++ [SpineEntry.vol ns.length] := by
  unfold canonicalSpine
  rw [List.enum_append]
  simp [List.enumFrom, List.flatten_append, List.append_assoc]

/-- Helper: extending the last volume block of the canonical spine by
one chapter. -/
lemma canonicalSpine_concat_chap (r : Nat) (ns : List Nat) (m : Nat) :
    canonicalSpine r (ns ++ [m + 1]) =
      canonicalSpine r (ns ++ [m]) ++ [SpineEntry.chap (some ns.length) m] := by
  unfold canonicalSpine
  rw [List.enum_append, List.enum_append]
  simp [List.enumFrom, List.flatten_append, List.range_succ, List.append_assoc]

/-- Helper: appending a root chapter to the canonical spine of a book
without volumes. -/
lemma canonicalSpine_succ_root (r : Nat) :
    canonicalSpine (r + 1) [] = canonicalSpine r [] ++ [SpineEntry.chap none r] := by
  unfold canonicalSpine
  simp [List.range_succ]

/-- Helper: appending a content line to a chapter changes no titles, no
counts, no spine, and no ownership. -/
lemma appendToChapter_shape (bk : Book) (loc : Option Nat × Nat)
    (content : List Char) :
    (appendToChapter bk loc content).spine = bk.spine ∧
    (appendToChapter bk loc content).rootChapters.length =
      bk.rootChapters.length ∧
    ((appendToChapter bk loc content).volumes.map fun v => v.chapters.length) =
      (bk.volumes.map fun v => v.chapters.length) ∧
    (appendToChapter bk loc content).volumes.length = bk.volumes.length ∧
    (ownersOk bk → ownersOk (appendToChapter bk loc content)) := by
  rcases loc with ⟨_ | i, j⟩
  · refine ⟨rfl, ?_, rfl, rfl, ?_⟩
    · simp [appendToChapter, updateAt_length]
    · rintro ⟨h1, h2⟩
      refine ⟨?_, ?_⟩
      · simp only [appendToChapter]
        exact forall_mem_updateAt (fun c : Chapter => c.volume = none)
          (fun c => { c with lines := c.lines ++ [content] })
          (fun a ha => ha) j bk.rootChapters h1
      · simpa [appendToChapter] using h2
  · refine ⟨rfl, rfl, ?_, ?_, ?_⟩
    · simp only [appendToChapter]
      exact map_updateAt_eq
        (fun v : Volume => { v with chapters := updateAt j (fun c => { c with lines := c.lines ++ [content] }) v.chapters })
        (fun v => v.chapters.length)
        (fun v => updateAt_length
          (fun c => { c with lines := c.lines ++ [content] }) j v.chapters)
        i bk.volumes
    · simp [appendToChapter, updateAt_length]
    · rintro ⟨h1, h2⟩
      refine ⟨by simpa [appendToChapter] using h1, ?_⟩
      intro k vv hk c hc
      simp only [appendToChapter] at hk
      rw [get?_updateAt] at hk
      by_cases hki : k = i
      · rw [if_pos hki] at hk
        rcases ho : bk.volumes.get? k with _ | v0
        · rw [ho] at hk; cases hk
        · rw [ho] at hk
          cases hk
          exact forall_mem_updateAt (fun c : Chapter => c.volume = some k)
            (fun c => { c with lines := c.lines ++ [content] })
            (fun a ha => ha) j v0.chapters
            (fun c hc => h2 k v0 ho c hc) c hc
      · rw [if_neg hki] at hk
        exact h2 k vv hk c hc

/-- Helper: transfer of the spine invariant along a book change that
moves no structure. -/
lemma spineInv_book_preserved (st : AsmSt) (bk' : Book)
    (cc' : Option (Option Nat × Nat)) (h : asmSpineInv st)
    (h1 : bk'.spine = st.book.spine)
    (h2 : bk'.rootChapters.length = st.book.rootChapters.length)
    (h3 : (bk'.volumes.map fun v => v.chapters.length) =
      (st.book.volumes.map fun v => v.chapters.length))
    (h4 : bk'.volumes.length = st.book.volumes.length)
    (h5 : ownersOk bk') :
    asmSpineInv { st with book := bk', currentChapter := cc' } := by
  obtain ⟨hspine, hcv, hown⟩ := h
  refine ⟨?_, ?_, h5⟩
  · show bk'.spine = canonicalSpine bk'.rootChapters.length
      (bk'.volumes.map fun v => v.chapters.length)
    rw [h1, h2, h3]
    exact hspine
  · show st.currentVolume =
      (if bk'.volumes = [] then none else some (bk'.volumes.length - 1))
    by_cases hv : st.book.volumes = []
    · have hv' : bk'.volumes = [] :=
        List.length_eq_zero.mp (by rw [h4, hv, List.length_nil])
      rw [if_pos hv']
      rw [if_pos hv] at hcv
      exact hcv
    · have hv' : bk'.volumes ≠ [] := by
        intro hE
        exact hv (List.length_eq_zero.mp (by rw [← h4, hE, List.length_nil]))
      rw [if_neg hv', h4]
      rw [if_neg hv] at hcv
      exact hcv

/-- Helper: appending an overflow line to a volume changes no chapter
lists, no spine, and no ownership. -/
lemma appendToVolume_shape (bk : Book) (i : Nat) (content : List Char) :
    (appendToVolume bk i content).spine = bk.spine ∧
    (appendToVolume bk i content).rootChapters = bk.rootChapters ∧
    ((appendToVolume bk i content).volumes.map fun v => v.chapters.length) =
      (bk.volumes.map fun v => v.chapters.length) ∧
    (appendToVolume bk i content).volumes.length = bk.volumes.length ∧
    (ownersOk bk → ownersOk (appendToVolume bk i content)) := by
  refine ⟨rfl, rfl, ?_, ?_, ?_⟩
  · simp only [appendToVolume]
    exact map_updateAt_eq
      (fun v : Volume => { v with lines := v.lines ++ [content] })
      (fun v => v.chapters.length) (fun v => rfl) i bk.volumes
  · simp [appendToVolume, updateAt_length]
  · rintro ⟨h1, h2⟩
    refine ⟨h1, ?_⟩
    intro k vv hk c hc
    simp only [appendToVolume] at hk
    rw [get?_updateAt] at hk
    by_cases hki : k = i
    · rw [if_pos hki] at hk
      rcases ho : bk.volumes.get? k with _ | v0
      · rw [ho] at hk; cases hk
      · rw [ho] at hk
        cases hk
        exact h2 k v0 ho c hc
    · rw [if_neg hki] at hk
      exact h2 k vv hk c hc

/-- C3: on the sample input, `parse_book` recovers title `示例书`, author
`张三`, the two-line intro joined by a newline, exactly two root
chapters, and the first chapter's content lines `第一行内容`,
`第二行内容`. -/
theorem c3_sample_parse :
    (parseBook c3text srcNameFB).title = c3title ∧
    (parseBook c3text srcNameFB).author = some c3author ∧
    (parseBook c3text srcNameFB).intro = some c3intro ∧
    (parseBook c3text srcNameFB).rootChapters.map Chapter.lines =
      [c3ch1lines, c3ch2lines] := by
  refine ⟨?_, ?_, ?_, ?_⟩ <;> rfl

/-- C9: the decoding ladder of `read_text` tries `utf-8-sig`, `utf-8`
and `gb18030` in that order and, when every candidate fails, falls back
to total forced UTF-8 decoding with replacement characters, so it always
returns text; in particular, on bytes only the GB18030 codec can decode,
the codec's characters are returned unchanged. -/
theorem c9_read_text_ladder (gb18030 : List Nat → Option (List Char))
    (data : List Nat) :
    (∀ cs, utf8SigDecode data = some cs → readText gb18030 data = cs) ∧
    (∀ cs, utf8SigDecode data = none → utf8Decode data = some cs →
      readText gb18030 data = cs) ∧
    (∀ cs, utf8SigDecode data = none → utf8Decode data = none →
      gb18030 data = some cs → readText gb18030 data = cs) ∧
    (utf8SigDecode data = none → utf8Decode data = none →
      gb18030 data = none → readText gb18030 data = utf8Replace data) := by
  refine ⟨?_, ?_, ?_, ?_⟩
  · intro cs h; simp [readText, h]
  · intro cs h1 h2; simp [readText, h1, h2]
  · intro cs h1 h2 h3; simp [readText, h1, h2, h3]
  · intro h1 h2 h3; simp [readText, h1, h2, h3]

/-- Witness for C9: the bytes `C4 E3` (GBK/GB18030 encoding of `你`) are
rejected by both UTF-8 candidates and recovered through the GB18030
decoder. -/
theorem c9_read_text_ladder_witness :
    utf8SigDecode [0xC4, 0xE3] = none ∧ utf8Decode [0xC4, 0xE3] = none ∧
    readText (fun b => if b = [0xC4, 0xE3] then some ['你'] else none)
      [0xC4, 0xE3] = ['你'] := by
  refine ⟨by decide, by decide, ?_⟩
  exact (c9_read_text_ladder
    (fun b => if b = [0xC4, 0xE3] then some ['你'] else none)
    [0xC4, 0xE3]).2.2.1 ['你'] (by decide) (by decide) (by decide)

/-- Helper: the unfolding of `startVolume`. -/
lemma startVolume_eq (st : AsmSt) (heading : List Char) :
    startVolume st heading =
      { st with
        book := { st.book with
          volumes := st.book.volumes ++ [({ title := heading } : Volume)],
          spine := st.book.spine ++ [SpineEntry.vol st.book.volumes.length] },
        currentVolume := some st.book.volumes.length,
        currentChapter := none } := rfl

/-- Helper: the unfolding of `startChapter` with no open volume. -/
lemma startChapter_none (st : AsmSt) (heading : List Char)
    (h : st.currentVolume = none) :
    startChapter st heading =
      { st with
        book := { st.book with
          rootChapters := st.book.rootChapters ++
            [({ title := heading, volume := none } : Chapter)],
          spine := st.book.spine ++
            [SpineEntry.chap none st.book.rootChapters.length] },
        currentChapter := some (none, st.book.rootChapters.length) } := by
  unfold startChapter
  rw [h]

/-- Helper: the unfolding of `startChapter` with volume `i` open. -/
lemma startChapter_some (st : AsmSt) (heading : List Char) (i : Nat)
    (h : st.currentVolume = some i) :
    startChapter st heading =
      { st with
        book := { st.book with
          volumes := updateAt i
            (fun v => { v with chapters := v.chapters ++
              [({ title := heading, volume := some i } : Chapter)] })
            st.book.volumes,
          spine := st.book.spine ++
            [SpineEntry.chap (some i)
              ((st.book.volumes.getD i { title := [] }).chapters).length] },
        currentChapter := some (some i,
          ((st.book.volumes.getD i { title := [] }).chapters).length) } := by
  unfold startChapter
  rw [h]

/-- Helper: opening a volume preserves the spine invariant, appending
the volume entry to the spine. -/
lemma spineInv_startVolume (st : AsmSt) (heading : List Char)
    (h : asmSpineInv st) : asmSpineInv (startVolume st heading) := by
  obtain ⟨hspine, hcv, hown⟩ := h
  rw [startVolume_eq]
  refine ⟨?_, ?_, ?_⟩
  · show st.book.spine ++ [SpineEntry.vol st.book.volumes.length] =
      canonicalSpine st.book.rootChapters.length
        ((st.book.volumes ++ [({ title := heading } : Volume)]).map
          fun v => v.chapters.length)
    rw [List.map_append, List.map_cons, List.map_nil]
    show st.book.spine ++ [SpineEntry.vol st.book.volumes.length] =
      canonicalSpine st.book.rootChapters.length
        ((st.book.volumes.map fun v => v.chapters.length) ++ [0])
    rw [canonicalSpine_concat_vol, ← hspine, List.length_map]
  · show some st.book.volumes.length =
      (if st.book.volumes ++ [({ title := heading } : Volume)] = [] then none
       else some ((st.book.volumes ++ [({ title := heading } : Volume)]).length - 1))
    rw [if_neg (by simp), List.length_append]
    simp
  · obtain ⟨h1, h2⟩ := hown
    refine ⟨h1, ?_⟩
    intro k vv hk c hc
    show c.volume = some k
    change (st.book.volumes ++ [({ title := heading } : Volume)]).get? k =
      some vv at hk
    by_cases hkl : k < st.book.volumes.length
    · rw [List.get?_append hkl] at hk
      exact h2 k vv hk c hc
    · have hlen : k < st.book.volumes.length + 1 := by
        have hlt := (List.get?_eq_some.mp hk).1
        simpa using hlt
      have hkeq : k = st.book.volumes.length := by omega
      rw [hkeq, List.get?_concat_length] at hk
      cases hk
      simp at hc

/-- Helper: opening a chapter preserves the spine invariant, appending
the chapter entry to the end of the spine (inside the current volume's
block, or after the root block when no volume is open). -/
lemma spineInv_startChapter (st : AsmSt) (heading : List Char)
    (h : asmSpineInv st) : asmSpineInv (startChapter st heading) := by
  obtain ⟨hspine, hcv, hown⟩ := h
  cases hcvv : st.currentVolume with
  | none =>
    have hvols : st.book.volumes = [] := by
      rcases hE : st.book.volumes with _ | ⟨v, vs⟩
      · rfl
      · rw [hcvv, hE, if_neg (by simp)] at hcv
        cases hcv
    rw [hvols, List.map_nil] at hspine
    rw [startChapter_none st heading hcvv]
    refine ⟨?_, ?_, ?_⟩
    · show st.book.spine ++ [SpineEntry.chap none st.book.rootChapters.length] =
        canonicalSpine
          (st.book.rootChapters ++
            [({ title := heading, volume := none } : Chapter)]).length
          (st.book.volumes.map fun v => v.chapters.length)
      rw [hvols, List.map_nil]
      simp only [List.length_append, List.length_cons, List.length_nil]
      rw [canonicalSpine_succ_root, ← hspine]
    · exact hcv
    · obtain ⟨h1, h2⟩ := hown
      refine ⟨?_, h2⟩
      intro c hc
      show c.volume = none
      change c ∈ st.book.rootChapters ++
        [({ title := heading, volume := none } : Chapter)] at hc
      rcases List.mem_append.mp hc with hc | hc
      · exact h1 c hc
      · rcases List.mem_cons.mp hc with rfl | hc
        · rfl
        · simp at hc
  | some i =>
    have hvne : st.book.volumes ≠ [] := by
      intro hE
      rw [hcvv, hE, if_pos rfl] at hcv
      cases hcv
    obtain ⟨vs, v, hvv⟩ := (List.eq_nil_or_concat' st.book.volumes).resolve_left hvne
    have hi : i = vs.length := by
      rw [hcvv, hvv, if_neg (by simp)] at hcv
      simp only [List.length_append, List.length_cons, List.length_nil,
        Option.some.injEq] at hcv
      omega
    have hgd : st.book.volumes.getD i ({ title := [] } : Volume) = v := by
      rw [hvv, hi]
      exact getD_concat_self vs v _
    have hupd : updateAt i
        (fun vv => { vv with chapters := vv.chapters ++
          [({ title := heading, volume := some i } : Chapter)] })
        st.book.volumes =
        vs ++ [{ v with chapters := v.chapters ++
          [({ title := heading, volume := some i } : Chapter)] }] := by
      rw [hvv, hi]
      exact updateAt_concat_self _ vs v
    have hget : st.book.volumes.get? i = some v := by
      rw [hvv, hi]
      exact List.get?_concat_length vs v
    rw [startChapter_some st heading i hcvv]
    refine ⟨?_, ?_, ?_⟩
    · show st.book.spine ++
          [SpineEntry.chap (some i)
            ((st.book.volumes.getD i { title := [] }).chapters).length] =
        canonicalSpine st.book.rootChapters.length
          ((updateAt i
            (fun vv => { vv with chapters := vv.chapters ++
              [({ title := heading, volume := some i } : Chapter)] })
            st.book.volumes).map fun v => v.chapters.length)
      rw [hgd, hupd, List.map_append, List.map_cons, List.map_nil]
      show st.book.spine ++ [SpineEntry.chap (some i) v.chapters.length] =
        canonicalSpine st.book.rootChapters.length
          ((vs.map fun v => v.chapters.length) ++ [(v.chapters ++
            [({ title := heading, volume := some i } : Chapter)]).length])
      have hlen1 : (v.chapters ++
          [({ title := heading, volume := some i } : Chapter)]).length =
          v.chapters.length + 1 := by simp
      rw [hlen1, canonicalSpine_concat_chap, List.length_map, ← hi]
      rw [hvv, List.map_append, List.map_cons, List.map_nil] at hspine
      rw [← hspine]
    · show st.currentVolume =
        (if (updateAt i
            (fun vv => { vv with chapters := vv.chapters ++
              [({ title := heading, volume := some i } : Chapter)] })
            st.book.volumes) = [] then none
         else some ((updateAt i
            (fun vv => { vv with chapters := vv.chapters ++
              [({ title := heading, volume := some i } : Chapter)] })
            st.book.volumes).length - 1))
      rw [hupd, if_neg (by simp), hcvv]
      simp only [List.length_append, List.length_cons, List.length_nil]
      rw [hi]
      simp
    · obtain ⟨h1, h2⟩ := hown
      refine ⟨h1, ?_⟩
      intro k vv hk c hc
      show c.volume = some k
      change (updateAt i
          (fun vv => { vv with chapters := vv.chapters ++
            [({ title := heading, volume := some i } : Chapter)] })
          st.book.volumes).get? k = some vv at hk
      rw [get?_updateAt] at hk
      by_cases hki : k = i
      · rw [if_pos hki, hki, hget] at hk
        cases hk
        rcases List.mem_append.mp hc with hc | hc
        · exact hki ▸ h2 i v hget c hc
        · rcases List.mem_cons.mp hc with rfl | hc
          · rw [hki]
          · simp at hc
      · rw [if_neg hki] at hk
        exact h2 k vv hk c hc

/-- Helper: every assembler step preserves the spine invariant. -/
lemma asmStep_spineInv (l : List Char) (prev nx : Option (List Char))
    (st : AsmSt) (h : asmSpineInv st) : asmSpineInv (asmStep l prev nx st) := by
  unfold asmStep
  cases hcl : classifyHeading l prev nx with
  | some k =>
    cases k with
    | volume => exact spineInv_startVolume st (pyStrip l) h
    | chapter => exact spineInv_startChapter st (pyStrip l) h
  | none =>
    by_cases hc : normalizeContentLine l = []
    · rw [if_pos hc]
      exact h
    · rw [if_neg hc]
      cases hcc : st.currentChapter with
      | some loc =>
        obtain ⟨s1, s2, s3, s4, s5⟩ :=
          appendToChapter_shape st.book loc (normalizeContentLine l)
        exact spineInv_book_preserved st _ st.currentChapter h s1 s2 s3 s4
          (s5 h.2.2)
      | none =>
        cases hcvv : st.currentVolume with
        | some i =>
          obtain ⟨s1, s2, s3, s4, s5⟩ :=
            appendToVolume_shape st.book i (normalizeContentLine l)
          have hpres := spineInv_book_preserved st _ none h s1 (by rw [s2])
            s3 s4 (s5 h.2.2)
          rw [hcvv] at hpres
          exact hpres
        | none =>
          by_cases hroot : st.book.rootChapters = []
          · rw [if_pos hroot]
            have h1 : asmSpineInv (startChapter st zhengWen) :=
              spineInv_startChapter st zhengWen h
            obtain ⟨s1, s2, s3, s4, s5⟩ :=
              appendToChapter_shape (startChapter st zhengWen).book
                (none, st.book.rootChapters.length) (normalizeContentLine l)
            exact spineInv_book_preserved (startChapter st zhengWen) _
              (startChapter st zhengWen).currentChapter h1 s1 s2 s3 s4
              (s5 h1.2.2)
          · rw [if_neg hroot]
            obtain ⟨s1, s2, s3, s4, s5⟩ :=
              appendToChapter_shape st.book
                (none, st.book.rootChapters.length - 1) (normalizeContentLine l)
            have hpres := spineInv_book_preserved st _
              (some ((none : Option Nat), st.book.rootChapters.length - 1)) h
              s1 s2 s3 s4 (s5 h.2.2)
            rw [hcvv] at hpres
            exact hpres

/-- Helper: the assembler loop preserves the spine invariant. -/
lemma bodyLoop_spineInv :
    ∀ (ls : List (List Char)) (prev : Option (List Char)) (st : AsmSt),
      asmSpineInv st → asmSpineInv (bodyLoop prev ls st) := by
  intro ls
  induction ls with
  | nil => intro prev st h; exact h
  | cons l rest ih =>
    intro prev st h
    exact ih (some l) _ (asmStep_spineInv l prev rest.head? st h)

/-- C1: for every input, `parse_book`'s spine is exactly the canonical
layout — all root chapters first in creation (document) order, then each
volume immediately followed by its own chapters in order — so every
chapter and every volume occurs exactly once, volumes stand immediately
before their chapters, and each chapter's parent volume (its `volume`
back reference, which ownership consistency ties to its containing
volume) precedes it in the spine. -/
theorem c1_spine_canonical (text nm : List Char) :
    (parseBook text nm).spine =
      canonicalSpine (parseBook text nm).rootChapters.length
        ((parseBook text nm).volumes.map fun v => v.chapters.length) ∧
    ownersOk (parseBook text nm) := by
  have hinit : asmSpineInv
      (asmInit (bookTitleOf (parseMetadata (splitlines text)).1 nm)
        (parseMetadata (splitlines text)).2.1
        (parseMetadata (splitlines text)).2.2.1) := by
    refine ⟨rfl, rfl, ?_, ?_⟩
    · intro c hc
      simp [asmInit] at hc
    · intro i v hv
      simp [asmInit] at hv
  have hres := bodyLoop_spineInv
    (bodyLines (splitlines text) (parseMetadata (splitlines text)).2.2.2) none _
    hinit
  have hPB : parseBook text nm =
      (bodyLoop none
        (bodyLines (splitlines text) (parseMetadata (splitlines text)).2.2.2)
        (asmInit (bookTitleOf (parseMetadata (splitlines text)).1 nm)
          (parseMetadata (splitlines text)).2.1
          (parseMetadata (splitlines text)).2.2.1)).book := rfl
  rw [hPB]
  exact ⟨hres.1, hres.2.2⟩

end Epubify
